import Mathlib

/-!
Shallow embedding of the task-scheduler engine (src/app/task.py and
src/app/task_scheduler.py) and proofs about its ready-queue discipline,
task invariants and derived metrics.

Python objects are modelled by a store (a list of `Task` records indexed
by reference); the task table, ready queue and completed list hold
references into the store, mirroring Python's aliasing of mutable `Task`
objects.  Wall-clock readings are passed in as explicit rational `now`
arguments; `time.sleep` has no observable effect beyond the time values
already passed in, so it is not modelled.  Python's `list.remove`
(which raises `ValueError` when the element is absent) is modelled by an
`Option`-returning removal.
-/

namespace TaskSched

/-- Task lifecycle states (src/app/task.py line 31). -/
inductive Status where
  | pending
  | running
  | completed
  | cancelled
deriving DecidableEq

/-- All fields of a `Task` object (src/app/task.py, `__init__`).
Times are rationals; `completion_time` starts as Python `None`, hence
`Option`. -/
structure Task where
  task_id : String
  name : String
  description : String
  priority : Int
  burst_time : Rat
  created_at : Rat
  arrival_time : Rat
  remaining_time : Rat
  waiting_time : Rat
  turnaround_time : Rat
  completion_time : Option Rat
  response_time : Rat
  last_execution_time : Rat
  status : Status
  progress : Int
deriving DecidableEq

/-- Constructor `Task.__init__`: scheduling state starts pending with
`remaining_time = burst_time`, sentinel `response_time = -1`,
`completion_time` unset. -/
def Task.init (task_id name : String) (priority : Int) (burst_time : Rat)
    (description : String) (created_at : Rat) : Task :=
  { task_id := task_id
    name := name
    description := description
    priority := priority
    burst_time := burst_time
    created_at := created_at
    arrival_time := 0
    remaining_time := burst_time
    waiting_time := 0
    turnaround_time := 0
    completion_time := none
    response_time := -1
    last_execution_time := 0
    status := Status.pending
    progress := 0 }

/-- Python's `int()` applied to a rational: truncation toward zero. -/
def pyInt (x : Rat) : Int := if 0 ≤ x then ⌊x⌋ else ⌈x⌉

/-- The serializable snapshot produced by `Task.to_dict`
(src/app/task.py lines 34-51). -/
structure TaskDict where
  task_id : String
  name : String
  description : String
  priority : Int
  burst_time : Rat
  created_at : Rat
  arrival_time : Rat
  remaining_time : Rat
  waiting_time : Rat
  turnaround_time : Rat
  completion_time : Rat
  response_time : Rat
  status : Status
  progress : Int
deriving DecidableEq

/-- Python truthiness applied to `self.completion_time`: `None` and `0`
are both falsy, so `self.completion_time if self.completion_time else 0`
yields `0` for either. -/
def pyFalsyTimeOrZero : Option Rat → Rat
  | none => 0
  | some c => if c = 0 then 0 else c

/-- `Task.to_dict` (src/app/task.py lines 34-51). -/
def Task.to_dict (t : Task) : TaskDict :=
  { task_id := t.task_id
    name := t.name
    description := t.description
    priority := t.priority
    burst_time := t.burst_time
    created_at := t.created_at
    arrival_time := t.arrival_time
    remaining_time := t.remaining_time
    waiting_time := t.waiting_time
    turnaround_time := t.turnaround_time
    completion_time := pyFalsyTimeOrZero t.completion_time
    response_time := t.response_time
    status := t.status
    progress := t.progress }

/-- Python dict assignment `d[k] = v`: replace in place when the key is
present, append otherwise (insertion-ordered dict). -/
def dictSet : List (String × Nat) → String → Nat → List (String × Nat)
  | [], k, v => [(k, v)]
  | (k', v') :: rest, k, v =>
      if k' = k then (k, v) :: rest else (k', v') :: dictSet rest k v

/-- Python dict lookup `d.get(k)` / `k in d`. -/
def dictGet : List (String × Nat) → String → Option Nat
  | [], _ => none
  | (k', v') :: rest, k => if k' = k then some v' else dictGet rest k

/-- Python `del d[k]`. -/
def dictDel : List (String × Nat) → String → List (String × Nat)
  | [], _ => []
  | (k', v') :: rest, k =>
      if k' = k then rest else (k', v') :: dictDel rest k

/-- Python `list.remove(x)`: drops the first occurrence, `none` models the
`ValueError` raised when `x` is absent. -/
def listRemove : List Nat → Nat → Option (List Nat)
  | [], _ => none
  | x :: rest, v =>
      if x = v then some rest else (listRemove rest v).map (fun l => x :: l)

/-- Default store entry; never consulted in well-formed states. -/
def taskDefault : Task := Task.init "" "" 0 0 "" 0

/-- Priority of the task object behind reference `r`. -/
def prAt (store : List Task) (r : Nat) : Int := (store.getD r taskDefault).priority

/-- Comparator for `self.ready_queue.sort(key=lambda x: x.priority, reverse=True)`:
descending priority; Python's sort is stable, as is `List.mergeSort`. -/
def prDesc (store : List Task) (a b : Nat) : Bool :=
  decide (prAt store b ≤ prAt store a)

/-- Re-sort of the ready queue by priority descending (stable). -/
def sortQueue (store : List Task) (q : List Nat) : List Nat :=
  q.mergeSort (prDesc store)

/-- `TaskScheduler` state (src/app/task_scheduler.py, `__init__`), with the
heap of task objects made explicit as `store`.  `start_time`, the lock and
the thread handle are not part of the data model: wall-clock readings enter
as explicit arguments and lock-delimited critical sections are the atomic
steps of the transition relation below. -/
structure SchedState where
  store : List Task
  tasks : List (String × Nat)
  ready_queue : List Nat
  time_quantum : Rat
  execution_sequence : List (String × Rat × Rat)
  completed_tasks : List Nat
  idle : Bool
  running : Bool
  current_task : Option Nat
deriving DecidableEq

/-- Task object behind reference `r`. -/
def SchedState.taskAt (s : SchedState) (r : Nat) : Task :=
  s.store.getD r taskDefault

/-- Fresh scheduler (src/app/task_scheduler.py lines 7-24). -/
def initScheduler (time_quantum : Rat) : SchedState :=
  { store := []
    tasks := []
    ready_queue := []
    time_quantum := time_quantum
    execution_sequence := []
    completed_tasks := []
    idle := true
    running := false
    current_task := none }

/-- `add_task` (src/app/task_scheduler.py lines 30-40): stamp the arrival
time, insert into the table and the ready queue, re-sort the queue by
priority descending, clear the idle flag.  Returns the new reference
(Python returns the task object itself). -/
def add_task (s : SchedState) (t : Task) (now : Rat) : SchedState × Nat :=
  let ref := s.store.length
  let t' := { t with arrival_time := now }
  let store' := s.store ++ [t']
  ({ s with
      store := store'
      tasks := dictSet s.tasks t'.task_id ref
      ready_queue := sortQueue store' (s.ready_queue ++ [ref])
      idle := false }, ref)

/-- `get_task` (src/app/task_scheduler.py lines 42-47). -/
def get_task (s : SchedState) (task_id : String) : Option Nat :=
  dictGet s.tasks task_id

/-- A partial-update request: the keyword arguments of `update_task`,
each field present or absent. -/
structure Patch where
  name : Option String
  description : Option String
  priority : Option Int
  burst_time : Option Rat
deriving DecidableEq

/-- The empty patch. -/
def Patch.empty : Patch := ⟨none, none, none, none⟩

/-- Stage of `update_task` for the `name` keyword (line 59-60). -/
def update_name (s : SchedState) (ref : Nat) : Option String → SchedState
  | none => s
  | some n => { s with store := s.store.set ref ({ s.taskAt ref with name := n }) }

/-- Stage of `update_task` for the `description` keyword (lines 61-62). -/
def update_description (s : SchedState) (ref : Nat) : Option String → SchedState
  | none => s
  | some d => { s with store := s.store.set ref ({ s.taskAt ref with description := d }) }

/-- Stage of `update_task` for the `priority` keyword (lines 63-69): set the
field, then, when the task is in the ready queue, remove, re-append and
re-sort. -/
def update_priority (s : SchedState) (ref : Nat) : Option Int → SchedState
  | none => s
  | some pr =>
      let s' := { s with store := s.store.set ref ({ s.taskAt ref with priority := pr }) }
      if ref ∈ s'.ready_queue then
        { s' with ready_queue := sortQueue s'.store ((s'.ready_queue.erase ref) ++ [ref]) }
      else s'

/-- Stage of `update_task` for the `burst_time` keyword (lines 70-75):
applies only while the task is still pending and shifts `remaining_time`
by the burst delta. -/
def update_burst (s : SchedState) (ref : Nat) : Option Rat → SchedState
  | none => s
  | some nb =>
      if (s.taskAt ref).status = Status.pending then
        let t' := { s.taskAt ref with
                    burst_time := nb
                    remaining_time := (s.taskAt ref).remaining_time - (s.taskAt ref).burst_time + nb }
        { s with store := s.store.set ref t' }
      else s

/-- `update_task` (src/app/task_scheduler.py lines 49-78): not-found when
the id is absent; all mutation skipped when the task is completed;
otherwise the `name`, `description`, `priority` and `burst_time` keywords
are applied in the order of the source. -/
def update_task (s : SchedState) (task_id : String) (p : Patch) :
    SchedState × Option Nat :=
  match dictGet s.tasks task_id with
  | none => (s, none)
  | some ref =>
    if (s.taskAt ref).status ≠ Status.completed then
      (update_burst
        (update_priority
          (update_description (update_name s ref p.name) ref p.description)
          ref p.priority)
        ref p.burst_time, some ref)
    else (s, some ref)

/-- `delete_task` (src/app/task_scheduler.py lines 80-99): not-found when
absent; otherwise remove the reference from the completed list (if the
task is completed) or from the ready queue (otherwise), each guarded by a
membership check, then delete the table entry. -/
def delete_task (s : SchedState) (task_id : String) : SchedState × Bool :=
  match dictGet s.tasks task_id with
  | none => (s, false)
  | some ref =>
    let s1 :=
      if (s.taskAt ref).status = Status.completed then
        if ref ∈ s.completed_tasks then
          { s with completed_tasks := s.completed_tasks.erase ref }
        else s
      else
        if ref ∈ s.ready_queue then
          { s with ready_queue := s.ready_queue.erase ref }
        else s
    ({ s1 with tasks := dictDel s1.tasks task_id }, true)

/-- Per-task effect of one execution slice (src/app/task_scheduler.py lines
101-122): pending tasks become running, an unset `response_time` is stamped,
`last_execution_time` is set, `remaining_time` is decremented by
`min(time_quantum, remaining_time)`, and `progress` is recomputed when
`burst_time > 0`. -/
def slice_task (q now : Rat) (t0 : Task) : Task :=
  let t1 := if t0.status = Status.pending then { t0 with status := Status.running } else t0
  let t2 := if t1.response_time = -1 then { t1 with response_time := now - t1.arrival_time } else t1
  let t3 := { t2 with last_execution_time := now }
  let actual := min q t3.remaining_time
  let t4 := { t3 with remaining_time := t3.remaining_time - actual }
  if 0 < t4.burst_time then
    { t4 with progress := min 100 (pyInt ((t4.burst_time - t4.remaining_time) / t4.burst_time * 100)) }
  else t4

/-- First half of `_process_task` (src/app/task_scheduler.py lines 101-131):
apply the slice to the task object and append one record to
`execution_sequence`; the record's end time is the start plus the actual
slice length `min(time_quantum, remaining_time)`. -/
def execute_slice (s : SchedState) (ref : Nat) (now : Rat) : SchedState :=
  let t := slice_task s.time_quantum now (s.taskAt ref)
  { s with
      store := s.store.set ref t
      execution_sequence := s.execution_sequence
        ++ [(t.task_id, now, now + min s.time_quantum (s.taskAt ref).remaining_time)] }

/-- Per-task effect of completion (src/app/task_scheduler.py lines 134-140). -/
def complete_task (t0 : Task) (now : Rat) : Task :=
  let t1 := { t0 with
              status := Status.completed
              completion_time := some now
              turnaround_time := now - t0.arrival_time }
  { t1 with
    waiting_time := t1.turnaround_time - (t1.burst_time - t1.remaining_time)
    progress := 100 }

/-- Completion branch of `_process_task` (src/app/task_scheduler.py lines
133-148).  When `remaining_time ≤ 0` the completion fields are written and
the task is moved from the ready queue to the completed list.  The removal
is the unguarded `self.ready_queue.remove(task)` of line 144, so the result
is `none` — modelling the `ValueError` — when the task is no longer in the
queue.  The returned flag is the function's completion result. -/
def finalize_task (s : SchedState) (ref : Nat) (now : Rat) :
    Option (SchedState × Bool) :=
  if (s.taskAt ref).remaining_time ≤ 0 then
    let t := complete_task (s.taskAt ref) now
    let s' := { s with store := s.store.set ref t }
    match listRemove s'.ready_queue ref with
    | none => none
    | some q =>
        some ({ s' with ready_queue := q
                        completed_tasks := s'.completed_tasks ++ [ref] }, true)
  else some (s, false)

/-- The scheduler loop's defensive post-completion re-check
(src/app/task_scheduler.py lines 202-208): remove from the ready queue only
if still present, append to the completed list only if not already there. -/
def loop_finalize_check (s : SchedState) (ref : Nat) : SchedState :=
  let s1 :=
    if ref ∈ s.ready_queue then
      { s with ready_queue := s.ready_queue.erase ref }
    else s
  if ref ∈ s1.completed_tasks then s1
  else { s1 with completed_tasks := s1.completed_tasks ++ [ref] }

/-- Python loop `for i, t in enumerate(queue): if t.priority == p:
insertion_idx = i + 1` (src/app/task_scheduler.py lines 184-187), with the
running index `i` and accumulator made explicit. -/
def insertionIdxAux (p : Int) : Nat → Nat → List Int → Nat
  | _, acc, [] => acc
  | i, acc, pr :: rest => insertionIdxAux p (i+1) (if pr = p then i + 1 else acc) rest

/-- Insertion point for the rotated head: one past the last index whose
priority equals `p`, or `0` when none matches. -/
def insertionIdx (p : Int) (prs : List Int) : Nat := insertionIdxAux p 0 0 prs

/-- The select phase of one loop iteration (src/app/task_scheduler.py lines
170-195): record the head as `current_task`, clear the idle flag, and when
at least two ready tasks share the head's priority remove the head and
re-insert it at the computed insertion index (appending when the index
reaches the end). -/
def select_step (s : SchedState) : SchedState :=
  if s.ready_queue.length = 0 then s
  else
    let hd := s.ready_queue.headI
    let s' := { s with idle := false, current_task := some hd }
    let p := prAt s'.store hd
    let cnt := s'.ready_queue.countP (fun r => decide (prAt s'.store r = p))
    if 1 < cnt then
      let q' := s'.ready_queue.erase hd
      let idx := insertionIdx p (q'.map (prAt s'.store))
      let q'' := if q'.length ≤ idx then q' ++ [hd] else q'.insertIdx idx hd
      { s' with ready_queue := q'' }
    else s'

/-- One full `_process_task` call on the selected task followed by the
loop's defensive re-check (src/app/task_scheduler.py lines 198-208),
executed without interleaving. -/
def process_task (s : SchedState) (ref : Nat) (now : Rat) :
    Option (SchedState × Bool) :=
  match finalize_task (execute_slice s ref now) ref now with
  | none => none
  | some (s', true) => some (loop_finalize_check s' ref, true)
  | some (s', false) => some (s', false)

/-- The record returned by `get_stats` (src/app/task_scheduler.py lines
268-278). -/
structure Stats where
  total_tasks : Nat
  pending_tasks : Nat
  running_tasks : Nat
  completed_tasks : Nat
  avg_waiting_time : Rat
  avg_turnaround_time : Rat
  avg_response_time : Rat
  scheduler_uptime : Rat
  idle : Bool
deriving DecidableEq

/-- `get_stats` (src/app/task_scheduler.py lines 251-278): counts over the
task table, averages over the completed list; every average divides by the
completed count, and the response-time sum skips tasks whose
`response_time` is negative. -/
def get_stats (s : SchedState) (now : Rat) : Stats :=
  let tableTasks := s.tasks.map (fun kv => s.taskAt kv.2)
  let completedObjs := s.completed_tasks.map s.taskAt
  let completed := s.completed_tasks.length
  { total_tasks := s.tasks.length
    pending_tasks := tableTasks.countP (fun t => decide (t.status = Status.pending))
    running_tasks := tableTasks.countP (fun t => decide (t.status = Status.running))
    completed_tasks := completed
    avg_waiting_time :=
      if 0 < completed then (completedObjs.map Task.waiting_time).sum / completed else 0
    avg_turnaround_time :=
      if 0 < completed then (completedObjs.map Task.turnaround_time).sum / completed else 0
    avg_response_time :=
      if 0 < completed then
        ((completedObjs.filter (fun t => decide (0 ≤ t.response_time))).map
          Task.response_time).sum / completed
      else 0
    scheduler_uptime := now
    idle := s.idle }

/-- Atomic transitions of the engine: each caller-facing operation's
critical section plus the loop's select and process phases, at the
granularity of the lock.  The upstream request layer validates fields
before they reach the engine (spec §6), so added and patched burst times
are positive.  When `fresh = true`, every `add_task` uses an id not
currently in the table, as in any run whose `add_task` calls use
pairwise-distinct ids. -/
inductive StepG (fresh : Bool) : SchedState → SchedState → Prop where
  | add (s : SchedState) (task_id nm : String) (pr : Int) (b : Rat)
      (d : String) (c : Rat) (now : Rat) (hb : 0 < b)
      (hfresh : fresh = true → dictGet s.tasks task_id = none) :
      StepG fresh s (add_task s (Task.init task_id nm pr b d c) now).1
  | update (s : SchedState) (task_id : String) (p : Patch)
      (hb : ∀ nb ∈ p.burst_time, 0 < nb) :
      StepG fresh s (update_task s task_id p).1
  | del (s : SchedState) (task_id : String) :
      StepG fresh s (delete_task s task_id).1
  | select (s : SchedState) :
      StepG fresh s (select_step s)
  | process (s : SchedState) (ref : Nat) (now : Rat) (s' : SchedState) (b : Bool)
      (href : ref ∈ s.ready_queue)
      (h : process_task s ref now = some (s', b)) :
      StepG fresh s s'

/-- States reachable from a freshly constructed engine whose configured
time quantum is nonnegative. -/
inductive ReachableG (fresh : Bool) : SchedState → Prop where
  | init (q : Rat) (hq : 0 ≤ q) : ReachableG fresh (initScheduler q)
  | step {s s' : SchedState} : ReachableG fresh s → StepG fresh s s' → ReachableG fresh s'

/-- Reachability with arbitrary (possibly duplicate) task ids. -/
def Reachable (s : SchedState) : Prop := ReachableG false s

/-- Reachability along runs whose `add_task` calls all use distinct ids. -/
def ReachableFresh (s : SchedState) : Prop := ReachableG true s

/-- Per-task invariant maintained by the engine for validated inputs. -/
def TaskInv (t : Task) : Prop :=
  0 < t.burst_time ∧
  (t.status = Status.pending → t.remaining_time = t.burst_time) ∧
  (t.status = Status.completed →
    t.remaining_time = 0 ∧ t.progress = 100 ∧
    t.waiting_time + (t.burst_time - t.remaining_time) = t.turnaround_time) ∧
  (t.status ≠ Status.completed →
    0 < t.remaining_time ∧ t.remaining_time ≤ t.burst_time ∧
    t.progress = min 100 (pyInt ((t.burst_time - t.remaining_time) / t.burst_time * 100)))

/-- Global well-formedness of a scheduler state. -/
structure WF (s : SchedState) : Prop where
  quantum_nonneg : 0 ≤ s.time_quantum
  queue_bound : ∀ r ∈ s.ready_queue, r < s.store.length
  table_bound : ∀ kv ∈ s.tasks, kv.2 < s.store.length
  queue_nodup : s.ready_queue.Nodup
  queue_sorted : s.ready_queue.Pairwise (fun a b => prAt s.store b ≤ prAt s.store a)
  queue_not_completed : ∀ r ∈ s.ready_queue, (s.taskAt r).status ≠ Status.completed
  task_inv : ∀ r, r < s.store.length → TaskInv (s.taskAt r)

/-- Correspondence between the ready queue and the task table: every queued
reference is exactly the table entry under its own task id. -/
def TableQueueCorr (s : SchedState) : Prop :=
  ∀ r ∈ s.ready_queue, dictGet s.tasks (s.taskAt r).task_id = some r

theorem getD_set_self {l : List Task} {i : Nat} (t d : Task) (h : i < l.length) :
    (l.set i t).getD i d = t := by
  rw [List.getD_eq_getElem?_getD, List.getElem?_set_self h]
  rfl

theorem getD_set_ne {l : List Task} {i j : Nat} (t d : Task) (h : i ≠ j) :
    (l.set i t).getD j d = l.getD j d := by
  rw [List.getD_eq_getElem?_getD, List.getElem?_set_ne h, ← List.getD_eq_getElem?_getD]

theorem getD_append_left {l l' : List Task} {i : Nat} (d : Task) (h : i < l.length) :
    (l ++ l').getD i d = l.getD i d := by
  rw [List.getD_eq_getElem?_getD, List.getElem?_append_left h, ← List.getD_eq_getElem?_getD]

theorem getD_append_length {l : List Task} (t d : Task) :
    (l ++ [t]).getD l.length d = t := by
  rw [List.getD_eq_getElem?_getD, List.getElem?_append_right (Nat.le_refl _)]
  simp

theorem dictGet_dictSet_self (d : List (String × Nat)) (k : String) (v : Nat) :
    dictGet (dictSet d k v) k = some v := by
  induction d with
  | nil => simp [dictSet, dictGet]
  | cons kv rest ih =>
      by_cases h : kv.1 = k <;> simp [dictSet, dictGet, h, ih]

theorem dictGet_dictSet_ne (d : List (String × Nat)) {k k' : String} (v : Nat)
    (h : k' ≠ k) : dictGet (dictSet d k v) k' = dictGet d k' := by
  induction d with
  | nil => simp [dictSet, dictGet, Ne.symm h]
  | cons kv rest ih =>
      by_cases hk : kv.1 = k
      · simp [dictSet, dictGet, hk, Ne.symm h]
      · simp [dictSet, dictGet, hk, ih]

theorem dictGet_dictDel_ne (d : List (String × Nat)) {k k' : String}
    (h : k' ≠ k) : dictGet (dictDel d k) k' = dictGet d k' := by
  induction d with
  | nil => simp [dictDel, dictGet]
  | cons kv rest ih =>
      by_cases hk : kv.1 = k
      · simp [dictDel, dictGet, hk, Ne.symm h]
      · simp [dictDel, dictGet, hk, ih]

theorem mem_dictSet {d : List (String × Nat)} {k : String} {v : Nat}
    {kv : String × Nat} (h : kv ∈ dictSet d k v) : kv = (k, v) ∨ kv ∈ d := by
  induction d with
  | nil =>
      simp [dictSet] at h
      exact Or.inl h
  | cons kv' rest ih =>
      by_cases hk : kv'.1 = k
      · simp only [dictSet, hk, if_pos rfl] at h
        rcases List.mem_cons.1 h with h | h
        · exact Or.inl h
        · exact Or.inr (List.mem_cons_of_mem _ h)
      · simp only [dictSet, if_neg hk] at h
        rcases List.mem_cons.1 h with h | h
        · exact Or.inr (h ▸ List.mem_cons_self _ _)
        · rcases ih h with h | h
          · exact Or.inl h
          · exact Or.inr (List.mem_cons_of_mem _ h)

theorem mem_dictDel {d : List (String × Nat)} {k : String}
    {kv : String × Nat} (h : kv ∈ dictDel d k) : kv ∈ d := by
  induction d with
  | nil => simp [dictDel] at h
  | cons kv' rest ih =>
      by_cases hk : kv'.1 = k
      · simp only [dictDel, hk, if_pos rfl] at h
        exact List.mem_cons_of_mem _ h
      · simp only [dictDel, if_neg hk] at h
        rcases List.mem_cons.1 h with h | h
        · exact h ▸ List.mem_cons_self _ _
        · exact List.mem_cons_of_mem _ (ih h)

theorem dictGet_mem {d : List (String × Nat)} {k : String} {v : Nat}
    (h : dictGet d k = some v) : (k, v) ∈ d := by
  induction d with
  | nil => simp [dictGet] at h
  | cons kv rest ih =>
      obtain ⟨k1, v1⟩ := kv
      by_cases hk : k1 = k
      · subst hk
        simp [dictGet] at h
        subst h
        exact List.mem_cons_self _ _
      · simp only [dictGet, if_neg hk] at h
        exact List.mem_cons_of_mem _ (ih h)

theorem listRemove_of_mem {l : List Nat} {v : Nat} (h : v ∈ l) :
    listRemove l v = some (l.erase v) := by
  induction l with
  | nil => simp at h
  | cons x rest ih =>
      by_cases hx : x = v
      · subst hx
        simp [listRemove, List.erase_cons_head]
      · rcases List.mem_cons.1 h with h' | h'
        · exact absurd h'.symm hx
        · simp [listRemove, hx, ih h', List.erase_cons, beq_iff_eq]

theorem listRemove_of_not_mem {l : List Nat} {v : Nat} (h : v ∉ l) :
    listRemove l v = none := by
  induction l with
  | nil => rfl
  | cons x rest ih =>
      simp only [List.mem_cons, not_or] at h
      simp [listRemove, Ne.symm h.1, h.1, ih h.2]

theorem pyInt_zero : pyInt 0 = 0 := by
  simp [pyInt]

theorem pyInt_of_nonneg {x : Rat} (h : 0 ≤ x) : pyInt x = ⌊x⌋ := by
  simp [pyInt, h]


theorem prDesc_trans (store : List Task) (a b c : Nat) :
    prDesc store a b = true → prDesc store b c = true → prDesc store a c = true := by
  simp only [prDesc, decide_eq_true_eq]
  exact fun h1 h2 => le_trans h2 h1

theorem prDesc_total (store : List Task) (a b : Nat) :
    (prDesc store a b || prDesc store b a) = true := by
  simp only [prDesc, Bool.or_eq_true, decide_eq_true_eq]
  exact le_total (prAt store b) (prAt store a)

theorem sortQueue_perm (store : List Task) (q : List Nat) :
    (sortQueue store q).Perm q :=
  List.mergeSort_perm q (prDesc store)

theorem mem_sortQueue {store : List Task} {q : List Nat} {r : Nat} :
    r ∈ sortQueue store q ↔ r ∈ q :=
  (sortQueue_perm store q).mem_iff

theorem sortQueue_sorted (store : List Task) (q : List Nat) :
    (sortQueue store q).Pairwise (fun a b => prAt store b ≤ prAt store a) := by
  have h := List.sorted_mergeSort
    (prDesc_trans store) (prDesc_total store) q
  exact h.imp (fun hab => by simpa [prDesc] using hab)

theorem sortQueue_nodup {store : List Task} {q : List Nat} (h : q.Nodup) :
    (sortQueue store q).Nodup :=
  h.perm (sortQueue_perm store q).symm

theorem sortQueue_stable {store : List Task} {q : List Nat} {a b : Nat}
    (hab : [a, b].Sublist q) (hle : prAt store b ≤ prAt store a) :
    [a, b].Sublist (sortQueue store q) := by
  refine List.sublist_mergeSort (prDesc_trans store) (prDesc_total store) ?_ hab
  simp [prDesc, hle]

theorem insertionIdxAux_of_none (p : Int) (l : List Int)
    (hl : ∀ x ∈ l, x ≠ p) : ∀ i acc, insertionIdxAux p i acc l = acc := by
  induction l with
  | nil => intro i acc; rfl
  | cons x rest ih =>
      intro i acc
      have hx : x ≠ p := hl x (List.mem_cons_self _ _)
      simp only [insertionIdxAux, if_neg hx]
      exact ih (fun y hy => hl y (List.mem_cons_of_mem _ hy)) _ _

theorem insertionIdxAux_append (p : Int) (B : List Int) (hB : ∀ x ∈ B, x ≠ p) :
    ∀ A : List Int, (∀ x ∈ A, x = p) → A ≠ [] →
      ∀ i acc, insertionIdxAux p i acc (A ++ B) = i + A.length := by
  intro A
  induction A with
  | nil => intro _ hne; exact absurd rfl hne
  | cons x A' ih =>
      intro hA _ i acc
      have hx : x = p := hA x (List.mem_cons_self _ _)
      have step : insertionIdxAux p i acc ((x :: A') ++ B)
          = insertionIdxAux p (i+1) (i+1) (A' ++ B) := by
        simp [insertionIdxAux, hx]
      rw [step]
      rcases eq_or_ne A' [] with hA' | hA'
      · subst hA'
        have hbase : insertionIdxAux p (i+1) (i+1) ([] ++ B) = i + 1 :=
          insertionIdxAux_of_none p B hB (i+1) (i+1)
        rw [hbase]
        simp
      · rw [ih (fun y hy => hA y (List.mem_cons_of_mem _ hy)) hA' (i+1) (i+1)]
        simp only [List.length_cons]
        omega

theorem insertionIdx_append (p : Int) (A B : List Int)
    (hA : ∀ x ∈ A, x = p) (hB : ∀ x ∈ B, x ≠ p) (hne : A ≠ []) :
    insertionIdx p (A ++ B) = A.length := by
  unfold insertionIdx
  rw [insertionIdxAux_append p B hB A hA hne 0 0]
  omega

theorem insertIdx_at_append (A B : List Nat) (x : Nat) :
    List.insertIdx A.length x (A ++ B) = A ++ x :: B := by
  induction A with
  | nil => rfl
  | cons a A' ih => simpa [List.insertIdx] using ih

theorem select_step_store (s : SchedState) : (select_step s).store = s.store := by
  unfold select_step
  split
  · rfl
  · dsimp only
    split <;> rfl

theorem select_step_tasks (s : SchedState) : (select_step s).tasks = s.tasks := by
  unfold select_step
  split
  · rfl
  · dsimp only
    split <;> rfl

theorem select_step_quantum (s : SchedState) :
    (select_step s).time_quantum = s.time_quantum := by
  unfold select_step
  split
  · rfl
  · dsimp only
    split <;> rfl

theorem select_step_completed (s : SchedState) :
    (select_step s).completed_tasks = s.completed_tasks := by
  unfold select_step
  split
  · rfl
  · dsimp only
    split <;> rfl

theorem select_step_queue_nil (s : SchedState) (h : s.ready_queue = []) :
    (select_step s).ready_queue = s.ready_queue := by
  simp [select_step, h]

theorem select_step_queue_single (s : SchedState) (hd : Nat) (rest : List Nat)
    (hq : s.ready_queue = hd :: rest)
    (hcnt : ¬ 1 < s.ready_queue.countP
      (fun r => decide (prAt s.store r = prAt s.store hd))) :
    (select_step s).ready_queue = s.ready_queue := by
  unfold select_step
  rw [hq] at hcnt ⊢
  simp only [List.length_cons, List.headI_cons]
  rw [if_neg (by simp)]
  dsimp only
  rw [if_neg hcnt]

theorem takeWhile_pr_eq (store : List Task) (p : Int) (l : List Nat) :
    ∀ x ∈ l.takeWhile (fun r => decide (prAt store r = p)), prAt store x = p := by
  intro x hx
  have h := List.mem_takeWhile_imp hx
  simpa using h

theorem dropWhile_pr_lt (store : List Task) (p : Int) (l : List Nat)
    (hsorted : l.Pairwise (fun a b => prAt store b ≤ prAt store a))
    (hle : ∀ x ∈ l, prAt store x ≤ p) :
    ∀ x ∈ l.dropWhile (fun r => decide (prAt store r = p)), prAt store x < p := by
  induction l with
  | nil => simp
  | cons a l' ih =>
      intro x hx
      rw [List.dropWhile_cons] at hx
      by_cases ha : prAt store a = p
      · rw [if_pos (by simpa using ha)] at hx
        exact ih hsorted.of_cons (fun y hy => hle y (List.mem_cons_of_mem _ hy)) x hx
      · rw [if_neg (by simpa using ha)] at hx
        have hap : prAt store a < p :=
          lt_of_le_of_ne (hle a (List.mem_cons_self _ _)) ha
        rcases List.mem_cons.1 hx with rfl | hx'
        · exact hap
        · exact lt_of_le_of_lt ((List.pairwise_cons.1 hsorted).1 x hx') hap

theorem countP_group (store : List Task) (p : Int) (l : List Nat)
    (hB : ∀ x ∈ l.dropWhile (fun r => decide (prAt store r = p)), prAt store x ≠ p) :
    l.countP (fun r => decide (prAt store r = p))
      = (l.takeWhile (fun r => decide (prAt store r = p))).length := by
  conv_lhs => rw [← l.takeWhile_append_dropWhile (p := fun r => decide (prAt store r = p))]
  rw [List.countP_append, List.countP_eq_length.2, List.countP_eq_zero.2]
  · simp
  · intro x hx
    simpa using hB x hx
  · intro x hx
    simpa using takeWhile_pr_eq store p l x hx

theorem rotate_queue_eq (store : List Task) (hd : Nat) (rest : List Nat)
    (hsorted : (hd :: rest).Pairwise (fun a b => prAt store b ≤ prAt store a))
    (hcnt : 1 < (hd :: rest).countP (fun r => decide (prAt store r = prAt store hd))) :
    (if ((hd :: rest).erase hd).length ≤
          insertionIdx (prAt store hd) (((hd :: rest).erase hd).map (prAt store)) then
        ((hd :: rest).erase hd) ++ [hd]
      else ((hd :: rest).erase hd).insertIdx
          (insertionIdx (prAt store hd) (((hd :: rest).erase hd).map (prAt store))) hd)
      = rest.takeWhile (fun r => decide (prAt store r = prAt store hd))
        ++ hd :: rest.dropWhile (fun r => decide (prAt store r = prAt store hd)) := by
  obtain ⟨G, hG⟩ : ∃ G, rest.takeWhile (fun r => decide (prAt store r = prAt store hd)) = G :=
    ⟨_, rfl⟩
  obtain ⟨B, hB⟩ : ∃ B, rest.dropWhile (fun r => decide (prAt store r = prAt store hd)) = B :=
    ⟨_, rfl⟩
  have hGB : G ++ B = rest := by
    rw [← hG, ← hB]
    exact List.takeWhile_append_dropWhile _ rest
  have herase : (hd :: rest).erase hd = rest := List.erase_cons_head hd rest
  have hle : ∀ x ∈ rest, prAt store x ≤ prAt store hd := (List.pairwise_cons.1 hsorted).1
  have hBlt : ∀ x ∈ B, prAt store x < prAt store hd := by
    rw [← hB]
    exact dropWhile_pr_lt store (prAt store hd) rest (List.pairwise_cons.1 hsorted).2 hle
  have hBne : ∀ x ∈ B, prAt store x ≠ prAt store hd := fun x hx => ne_of_lt (hBlt x hx)
  have hGeq : ∀ x ∈ G, prAt store x = prAt store hd := by
    rw [← hG]
    exact takeWhile_pr_eq store (prAt store hd) rest
  have hcount : (hd :: rest).countP (fun r => decide (prAt store r = prAt store hd))
      = G.length + 1 := by
    rw [List.countP_cons_of_pos _ _ (by simp),
      countP_group store _ rest (by rw [hB]; exact hBne), hG]
  have hGne : G ≠ [] := by
    intro h0
    rw [hcount, h0] at hcnt
    simp at hcnt
  have hidx : insertionIdx (prAt store hd) (rest.map (prAt store)) = G.length := by
    have hmapsplit : rest.map (prAt store) = G.map (prAt store) ++ B.map (prAt store) := by
      rw [← List.map_append, hGB]
    rw [hmapsplit,
      insertionIdx_append (prAt store hd) _ _
        (by intro x hx
            rcases List.mem_map.1 hx with ⟨y, hy, rfl⟩
            exact hGeq y hy)
        (by intro x hx
            rcases List.mem_map.1 hx with ⟨y, hy, rfl⟩
            exact hBne y hy)
        (by simpa using hGne),
      List.length_map]
  rw [hG, hB, herase, hidx]
  have hlen : rest.length = G.length + B.length := by
    conv_lhs => rw [← hGB]
    exact List.length_append _ _
  rcases eq_or_ne B [] with hBnil | hBnil
  · rw [if_pos (by rw [hlen, hBnil]; simp)]
    rw [← hGB, hBnil]
    simp
  · rw [if_neg (by
      rw [hlen]
      have hpos : 0 < B.length := List.length_pos.2 hBnil
      omega)]
    rw [← hGB]
    exact insertIdx_at_append G B hd

theorem select_step_queue_of_count (s : SchedState) (hd : Nat) (rest : List Nat)
    (hq : s.ready_queue = hd :: rest)
    (hcnt : 1 < (hd :: rest).countP (fun r => decide (prAt s.store r = prAt s.store hd))) :
    (select_step s).ready_queue
      = (if ((hd :: rest).erase hd).length ≤
            insertionIdx (prAt s.store hd) (((hd :: rest).erase hd).map (prAt s.store)) then
          ((hd :: rest).erase hd) ++ [hd]
        else ((hd :: rest).erase hd).insertIdx
            (insertionIdx (prAt s.store hd) (((hd :: rest).erase hd).map (prAt s.store))) hd) := by
  unfold select_step
  rw [hq]
  simp only [List.length_cons, List.headI_cons]
  rw [if_neg (by simp)]
  dsimp only
  rw [if_pos hcnt]

theorem select_step_rotated (s : SchedState) (hd : Nat) (rest : List Nat)
    (hq : s.ready_queue = hd :: rest)
    (hsorted : s.ready_queue.Pairwise (fun a b => prAt s.store b ≤ prAt s.store a))
    (hcnt : 1 < s.ready_queue.countP (fun r => decide (prAt s.store r = prAt s.store hd))) :
    (select_step s).ready_queue
      = rest.takeWhile (fun r => decide (prAt s.store r = prAt s.store hd))
        ++ hd :: rest.dropWhile (fun r => decide (prAt s.store r = prAt s.store hd)) := by
  rw [hq] at hsorted hcnt
  rw [select_step_queue_of_count s hd rest hq hcnt]
  exact rotate_queue_eq s.store hd rest hsorted hcnt

theorem select_step_queue_perm (s : SchedState)
    (hsorted : s.ready_queue.Pairwise (fun a b => prAt s.store b ≤ prAt s.store a)) :
    (select_step s).ready_queue.Perm s.ready_queue := by
  cases hq : s.ready_queue with
  | nil =>
      rw [select_step_queue_nil s hq, hq]
  | cons hd rest =>
      by_cases hcnt : 1 < s.ready_queue.countP
          (fun r => decide (prAt s.store r = prAt s.store hd))
      · rw [select_step_rotated s hd rest hq hsorted hcnt]
        refine List.perm_middle.trans ?_
        rw [List.takeWhile_append_dropWhile]
      · rw [select_step_queue_single s hd rest hq hcnt, hq]

theorem select_step_queue_sorted (s : SchedState)
    (hsorted : s.ready_queue.Pairwise (fun a b => prAt s.store b ≤ prAt s.store a)) :
    (select_step s).ready_queue.Pairwise (fun a b => prAt s.store b ≤ prAt s.store a) := by
  cases hq : s.ready_queue with
  | nil =>
      rw [select_step_queue_nil s hq, hq]
      exact List.Pairwise.nil
  | cons hd rest =>
      by_cases hcnt : 1 < s.ready_queue.countP
          (fun r => decide (prAt s.store r = prAt s.store hd))
      · rw [select_step_rotated s hd rest hq hsorted hcnt]
        rw [hq] at hsorted
        have hrest : rest.Pairwise (fun a b => prAt s.store b ≤ prAt s.store a) :=
          (List.pairwise_cons.1 hsorted).2
        have hle : ∀ x ∈ rest, prAt s.store x ≤ prAt s.store hd :=
          (List.pairwise_cons.1 hsorted).1
        have hBlt : ∀ x ∈ rest.dropWhile (fun r => decide (prAt s.store r = prAt s.store hd)),
            prAt s.store x < prAt s.store hd :=
          dropWhile_pr_lt s.store (prAt s.store hd) rest hrest hle
        have hGeq : ∀ x ∈ rest.takeWhile (fun r => decide (prAt s.store r = prAt s.store hd)),
            prAt s.store x = prAt s.store hd :=
          takeWhile_pr_eq s.store (prAt s.store hd) rest
        rw [List.pairwise_append]
        refine ⟨hrest.sublist (List.takeWhile_sublist _), ?_, ?_⟩
        · rw [List.pairwise_cons]
          exact ⟨fun x hx => le_of_lt (hBlt x hx), hrest.sublist (List.dropWhile_sublist _)⟩
        · intro a ha b hb
          rcases List.mem_cons.1 hb with rfl | hb'
          · rw [hGeq a ha]
          · rw [hGeq a ha]
            exact le_of_lt (hBlt b hb')
      · rw [select_step_queue_single s hd rest hq hcnt, hq]
        rw [hq] at hsorted
        exact hsorted

theorem getD_set_out {l : List Task} {i : Nat} (t d : Task) (h : l.length ≤ i) :
    (l.set i t).getD i d = l.getD i d := by
  rw [List.getD_eq_getElem?_getD, List.getD_eq_getElem?_getD,
    List.getElem?_eq_none (by simpa using h), List.getElem?_eq_none h]

theorem prAt_set (store : List Task) (ref : Nat) (t' : Task)
    (hpr : t'.priority = prAt store ref) :
    ∀ r, prAt (store.set ref t') r = prAt store r := by
  intro r
  rcases eq_or_ne r ref with rfl | hne
  · rcases Nat.lt_or_ge r store.length with hlt | hge
    · unfold prAt at hpr ⊢
      rw [getD_set_self _ _ hlt]
      exact hpr
    · unfold prAt
      rw [getD_set_out _ _ hge]
  · unfold prAt
    rw [getD_set_ne _ _ (Ne.symm hne)]

theorem taskAt_set_self (s : SchedState) {ref : Nat} (t' : Task) (h : ref < s.store.length) :
    ({ s with store := s.store.set ref t' } : SchedState).taskAt ref = t' := by
  unfold SchedState.taskAt
  exact getD_set_self _ _ h

theorem taskAt_set_ne (s : SchedState) {ref r : Nat} (t' : Task) (h : r ≠ ref) :
    ({ s with store := s.store.set ref t' } : SchedState).taskAt r = s.taskAt r := by
  unfold SchedState.taskAt
  exact getD_set_ne _ _ (Ne.symm h)

theorem taskAt_eq_getD (s : SchedState) (r : Nat) :
    s.taskAt r = s.store.getD r taskDefault := rfl

/-- Setting a store entry without changing its priority or status, to a task
that still satisfies the per-task invariant, preserves well-formedness. -/
theorem WF_store_set (s : SchedState) (w : WF s) (ref : Nat) (t' : Task)
    (hpr : t'.priority = (s.taskAt ref).priority)
    (hst : t'.status = (s.taskAt ref).status)
    (hinv : ref < s.store.length → TaskInv t') :
    WF { s with store := s.store.set ref t' } := by
  have hprAll : ∀ r, prAt (s.store.set ref t') r = prAt s.store r :=
    prAt_set s.store ref t' hpr
  constructor
  · exact w.quantum_nonneg
  · intro r hr
    simpa using w.queue_bound r hr
  · intro kv hkv
    simpa using w.table_bound kv hkv
  · exact w.queue_nodup
  · exact w.queue_sorted.imp_of_mem (fun {a b} _ _ hab => by
      dsimp only
      rw [hprAll a, hprAll b]
      exact hab)
  · intro r hr
    rcases eq_or_ne r ref with rfl | hne
    · rcases Nat.lt_or_ge r s.store.length with hlt | hge
      · rw [taskAt_set_self s t' hlt, hst]
        exact w.queue_not_completed r hr
      · have : ({ s with store := s.store.set r t' } : SchedState).taskAt r = s.taskAt r := by
          unfold SchedState.taskAt
          exact getD_set_out _ _ hge
        rw [this]
        exact w.queue_not_completed r hr
    · rw [taskAt_set_ne s t' hne]
      exact w.queue_not_completed r hr
  · intro r hr
    simp only [List.length_set] at hr
    rcases eq_or_ne r ref with rfl | hne
    · rw [taskAt_set_self s t' hr]
      exact hinv hr
    · rw [taskAt_set_ne s t' hne]
      exact w.task_inv r hr

theorem TaskInv_congr {t t' : Task} (hb : t'.burst_time = t.burst_time)
    (hr : t'.remaining_time = t.remaining_time) (hst : t'.status = t.status)
    (hpg : t'.progress = t.progress) (hw : t'.waiting_time = t.waiting_time)
    (htt : t'.turnaround_time = t.turnaround_time) (h : TaskInv t) : TaskInv t' := by
  unfold TaskInv at h ⊢
  rw [hb, hr, hst, hpg, hw, htt]
  exact h

theorem WF_update_name (s : SchedState) (w : WF s) (ref : Nat) (o : Option String) :
    WF (update_name s ref o) := by
  cases o with
  | none => exact w
  | some n =>
      exact WF_store_set s w ref _ rfl rfl
        (fun h => TaskInv_congr rfl rfl rfl rfl rfl rfl (w.task_inv ref h))

theorem WF_update_description (s : SchedState) (w : WF s) (ref : Nat) (o : Option String) :
    WF (update_description s ref o) := by
  cases o with
  | none => exact w
  | some d =>
      exact WF_store_set s w ref _ rfl rfl
        (fun h => TaskInv_congr rfl rfl rfl rfl rfl rfl (w.task_inv ref h))

theorem WF_update_priority (s : SchedState) (w : WF s) (ref : Nat) (o : Option Int) :
    WF (update_priority s ref o) := by
  cases o with
  | none => exact w
  | some pr =>
      unfold update_priority
      dsimp only
      split
      case isTrue hmem =>
        have hreflen : ref < s.store.length := by
          simpa using w.queue_bound ref (by simpa using hmem)
        constructor
        · exact w.quantum_nonneg
        · intro r hr
          have hr' : r ∈ (s.ready_queue.erase ref) ++ [ref] := mem_sortQueue.1 hr
          rcases List.mem_append.1 hr' with h | h
          · simpa using w.queue_bound r (List.mem_of_mem_erase h)
          · simp only [List.mem_singleton] at h
            subst h
            simpa using hreflen
        · intro kv hkv
          simpa using w.table_bound kv hkv
        · apply sortQueue_nodup
          rw [List.nodup_append]
          refine ⟨w.queue_nodup.erase _, List.nodup_singleton _, ?_⟩
          intro a ha
          simp only [List.mem_singleton]
          intro hb
          subst hb
          exact ((w.queue_nodup.mem_erase_iff).1 ha).1 rfl
        · exact sortQueue_sorted _ _
        · intro r hr
          have hr' : r ∈ (s.ready_queue.erase ref) ++ [ref] := mem_sortQueue.1 hr
          have hrq : r ∈ s.ready_queue := by
            rcases List.mem_append.1 hr' with h | h
            · exact List.mem_of_mem_erase h
            · simp only [List.mem_singleton] at h
              subst h
              simpa using hmem
          rcases eq_or_ne r ref with rfl | hne
          · simp only [taskAt_eq_getD]
            rw [getD_set_self _ _ hreflen]
            exact w.queue_not_completed r hrq
          · simp only [taskAt_eq_getD]
            rw [getD_set_ne _ _ (Ne.symm hne)]
            exact w.queue_not_completed r hrq
        · intro r hr
          simp only [List.length_set] at hr
          rcases eq_or_ne r ref with rfl | hne
          · simp only [taskAt_eq_getD]
            rw [getD_set_self _ _ hr]
            exact TaskInv_congr rfl rfl rfl rfl rfl rfl (w.task_inv r hr)
          · simp only [taskAt_eq_getD]
            rw [getD_set_ne _ _ (Ne.symm hne)]
            exact w.task_inv r hr
      case isFalse hmem =>
        constructor
        · exact w.quantum_nonneg
        · intro r hr
          simpa using w.queue_bound r (by simpa using hr)
        · intro kv hkv
          simpa using w.table_bound kv hkv
        · exact w.queue_nodup
        · refine w.queue_sorted.imp_of_mem (fun {a b} ha hb hab => ?_)
          have hane : a ≠ ref := fun h => hmem (by simpa [h] using ha)
          have hbne : b ≠ ref := fun h => hmem (by simpa [h] using hb)
          dsimp only
          unfold prAt
          rw [getD_set_ne _ _ (Ne.symm hane), getD_set_ne _ _ (Ne.symm hbne)]
          exact hab
        · intro r hr
          have hrq : r ∈ s.ready_queue := by simpa using hr
          have hne : r ≠ ref := fun h => hmem (by simpa [h] using hr)
          rw [taskAt_set_ne s _ hne]
          exact w.queue_not_completed r hrq
        · intro r hr
          simp only [List.length_set] at hr
          rcases eq_or_ne r ref with rfl | hne
          · rw [taskAt_set_self s _ hr]
            exact TaskInv_congr rfl rfl rfl rfl rfl rfl (w.task_inv r hr)
          · rw [taskAt_set_ne s _ hne]
            exact w.task_inv r hr

theorem min_100_pyInt_zero_formula (b : Rat) :
    min (100 : Int) (pyInt ((b - b) / b * 100)) = 0 := by
  simp [pyInt]

theorem WF_update_burst (s : SchedState) (w : WF s) (ref : Nat) (o : Option Rat)
    (hb : ∀ nb ∈ o, 0 < nb) :
    WF (update_burst s ref o) := by
  cases o with
  | none => exact w
  | some nb =>
      have hnb : 0 < nb := hb nb (by simp)
      unfold update_burst
      dsimp only
      split
      case isTrue hpend =>
        apply WF_store_set s w ref
          ({ s.taskAt ref with
              burst_time := nb
              remaining_time := (s.taskAt ref).remaining_time - (s.taskAt ref).burst_time + nb })
          rfl rfl
        intro h
        obtain ⟨hb0, hpendinv, _, hncompinv⟩ := w.task_inv ref h
        have hrb : (s.taskAt ref).remaining_time = (s.taskAt ref).burst_time := hpendinv hpend
        have hnc : (s.taskAt ref).status ≠ Status.completed := by
          rw [hpend]
          intro hx
          exact Status.noConfusion hx
        obtain ⟨_, _, hpg⟩ := hncompinv hnc
        have hrem : (s.taskAt ref).remaining_time - (s.taskAt ref).burst_time + nb = nb := by
          rw [hrb]
          ring
        refine ⟨hnb, fun _ => hrem, fun hc => ?_, fun _ => ⟨?_, ?_, ?_⟩⟩
        · exact absurd (hpend ▸ hc) (by intro hx; exact Status.noConfusion hx)
        · show (0 : Rat) < (s.taskAt ref).remaining_time - (s.taskAt ref).burst_time + nb
          rw [hrem]
          exact hnb
        · show (s.taskAt ref).remaining_time - (s.taskAt ref).burst_time + nb ≤ nb
          rw [hrem]
        · show (s.taskAt ref).progress
            = min 100 (pyInt ((nb - ((s.taskAt ref).remaining_time - (s.taskAt ref).burst_time + nb)) / nb * 100))
          have harg : (nb - ((s.taskAt ref).remaining_time - (s.taskAt ref).burst_time + nb)) / nb * 100
              = (nb - nb) / nb * 100 := by
            rw [hrb]
            ring_nf
          rw [harg, min_100_pyInt_zero_formula, hpg, hrb, min_100_pyInt_zero_formula]
      case isFalse => exact w

theorem WF_update (s : SchedState) (w : WF s) (task_id : String) (p : Patch)
    (hb : ∀ nb ∈ p.burst_time, 0 < nb) :
    WF (update_task s task_id p).1 := by
  unfold update_task
  cases hg : dictGet s.tasks task_id with
  | none => exact w
  | some ref =>
      dsimp only
      split
      · exact WF_update_burst _
          (WF_update_priority _
            (WF_update_description _ (WF_update_name s w ref p.name) ref p.description)
            ref p.priority)
          ref p.burst_time hb
      · exact w

theorem WF_queue_erase (s : SchedState) (w : WF s) (ref : Nat) :
    WF { s with ready_queue := s.ready_queue.erase ref } := by
  constructor
  · exact w.quantum_nonneg
  · intro r hr
    exact w.queue_bound r (List.mem_of_mem_erase (by simpa using hr))
  · intro kv hkv
    simpa using w.table_bound kv hkv
  · exact w.queue_nodup.erase _
  · exact w.queue_sorted.sublist (List.erase_sublist _ _)
  · intro r hr
    exact w.queue_not_completed r (List.mem_of_mem_erase (by simpa using hr))
  · exact w.task_inv

theorem WF_delete (s : SchedState) (w : WF s) (task_id : String) :
    WF (delete_task s task_id).1 := by
  unfold delete_task
  cases hg : dictGet s.tasks task_id with
  | none => exact w
  | some ref =>
      dsimp only
      have hWFs1 : WF (if (s.taskAt ref).status = Status.completed then
          (if ref ∈ s.completed_tasks then
            { s with completed_tasks := s.completed_tasks.erase ref } else s)
        else
          (if ref ∈ s.ready_queue then
            { s with ready_queue := s.ready_queue.erase ref } else s)) := by
        split
        · split
          · constructor
            · exact w.quantum_nonneg
            · exact w.queue_bound
            · exact w.table_bound
            · exact w.queue_nodup
            · exact w.queue_sorted
            · exact w.queue_not_completed
            · exact w.task_inv
          · exact w
        · split
          · exact WF_queue_erase s w ref
          · exact w
      generalize hs1 : (if (s.taskAt ref).status = Status.completed then
          (if ref ∈ s.completed_tasks then
            { s with completed_tasks := s.completed_tasks.erase ref } else s)
        else
          (if ref ∈ s.ready_queue then
            { s with ready_queue := s.ready_queue.erase ref } else s)) = s1 at hWFs1
      constructor
      · exact hWFs1.quantum_nonneg
      · exact hWFs1.queue_bound
      · intro kv hkv
        exact hWFs1.table_bound kv (mem_dictDel (by simpa using hkv))
      · exact hWFs1.queue_nodup
      · exact hWFs1.queue_sorted
      · exact hWFs1.queue_not_completed
      · exact hWFs1.task_inv

theorem slice_task_priority (q now : Rat) (t : Task) :
    (slice_task q now t).priority = t.priority := by
  unfold slice_task
  dsimp only
  split_ifs <;> rfl

theorem slice_task_task_id (q now : Rat) (t : Task) :
    (slice_task q now t).task_id = t.task_id := by
  unfold slice_task
  dsimp only
  split_ifs <;> rfl

theorem slice_task_burst (q now : Rat) (t : Task) :
    (slice_task q now t).burst_time = t.burst_time := by
  unfold slice_task
  dsimp only
  split_ifs <;> rfl

theorem slice_task_remaining (q now : Rat) (t : Task) :
    (slice_task q now t).remaining_time = t.remaining_time - min q t.remaining_time := by
  unfold slice_task
  dsimp only
  split_ifs <;> rfl

theorem slice_task_status (q now : Rat) (t : Task) :
    (slice_task q now t).status
      = (if t.status = Status.pending then Status.running else t.status) := by
  unfold slice_task
  dsimp only
  split_ifs <;> rfl

theorem slice_task_progress (q now : Rat) (t : Task) (h : 0 < t.burst_time) :
    (slice_task q now t).progress
      = min 100 (pyInt ((t.burst_time - (t.remaining_time - min q t.remaining_time))
          / t.burst_time * 100)) := by
  unfold slice_task
  dsimp only
  split_ifs <;> rfl

theorem complete_task_fields (t : Task) (now : Rat) :
    (complete_task t now).status = Status.completed
    ∧ (complete_task t now).remaining_time = t.remaining_time
    ∧ (complete_task t now).burst_time = t.burst_time
    ∧ (complete_task t now).priority = t.priority
    ∧ (complete_task t now).task_id = t.task_id
    ∧ (complete_task t now).progress = 100
    ∧ (complete_task t now).turnaround_time = now - t.arrival_time
    ∧ (complete_task t now).waiting_time
        = (now - t.arrival_time) - (t.burst_time - t.remaining_time)
    ∧ (complete_task t now).completion_time = some now := by
  unfold complete_task
  exact ⟨rfl, rfl, rfl, rfl, rfl, rfl, rfl, rfl, rfl⟩

theorem execute_slice_ready_queue (s : SchedState) (ref : Nat) (now : Rat) :
    (execute_slice s ref now).ready_queue = s.ready_queue := rfl

theorem execute_slice_tasks (s : SchedState) (ref : Nat) (now : Rat) :
    (execute_slice s ref now).tasks = s.tasks := rfl

theorem execute_slice_quantum (s : SchedState) (ref : Nat) (now : Rat) :
    (execute_slice s ref now).time_quantum = s.time_quantum := rfl

theorem execute_slice_completed (s : SchedState) (ref : Nat) (now : Rat) :
    (execute_slice s ref now).completed_tasks = s.completed_tasks := rfl

theorem execute_slice_store (s : SchedState) (ref : Nat) (now : Rat) :
    (execute_slice s ref now).store
      = s.store.set ref (slice_task s.time_quantum now (s.taskAt ref)) := rfl

theorem execute_slice_taskAt_self (s : SchedState) {ref : Nat} (now : Rat)
    (h : ref < s.store.length) :
    (execute_slice s ref now).taskAt ref
      = slice_task s.time_quantum now (s.taskAt ref) := by
  simp only [taskAt_eq_getD, execute_slice_store]
  exact getD_set_self _ _ h

theorem execute_slice_taskAt_ne (s : SchedState) {ref r : Nat} (now : Rat)
    (h : r ≠ ref) :
    (execute_slice s ref now).taskAt r = s.taskAt r := by
  simp only [taskAt_eq_getD, execute_slice_store]
  exact getD_set_ne _ _ (Ne.symm h)

theorem loop_finalize_check_of (s : SchedState) (ref : Nat)
    (h1 : ref ∉ s.ready_queue) (h2 : ref ∈ s.completed_tasks) :
    loop_finalize_check s ref = s := by
  unfold loop_finalize_check
  rw [if_neg h1]
  dsimp only
  rw [if_pos h2]

theorem WF_add (s : SchedState) (w : WF s) (t : Task) (now : Rat)
    (hb : 0 < t.burst_time) (hr : t.remaining_time = t.burst_time)
    (hst : t.status = Status.pending) (hpg : t.progress = 0) :
    WF (add_task s t now).1 := by
  unfold add_task
  dsimp only
  have hmem : ∀ r, r ∈ sortQueue (s.store ++ [{ t with arrival_time := now }])
      (s.ready_queue ++ [s.store.length]) → r ∈ s.ready_queue ∨ r = s.store.length := by
    intro r hrq
    rcases List.mem_append.1 (mem_sortQueue.1 hrq) with h | h
    · exact Or.inl h
    · exact Or.inr (by simpa using h)
  constructor
  · exact w.quantum_nonneg
  · intro r hrq
    simp only [List.length_append, List.length_singleton]
    rcases hmem r hrq with h | h
    · exact Nat.lt_succ_of_lt (w.queue_bound r h)
    · omega
  · intro kv hkv
    simp only [List.length_append, List.length_singleton]
    rcases mem_dictSet hkv with h | h
    · subst h
      omega
    · exact Nat.lt_succ_of_lt (w.table_bound kv h)
  · apply sortQueue_nodup
    rw [List.nodup_append]
    refine ⟨w.queue_nodup, List.nodup_singleton _, ?_⟩
    intro a ha
    simp only [List.mem_singleton]
    intro h
    rw [h] at ha
    exact absurd (w.queue_bound _ ha) (lt_irrefl _)
  · exact sortQueue_sorted _ _
  · intro r hrq
    rcases hmem r hrq with h | h
    · simp only [taskAt_eq_getD]
      rw [getD_append_left _ (w.queue_bound r h)]
      exact w.queue_not_completed r h
    · subst h
      simp only [taskAt_eq_getD]
      rw [getD_append_length]
      show ({ t with arrival_time := now } : Task).status ≠ Status.completed
      rw [show ({ t with arrival_time := now } : Task).status = t.status from rfl, hst]
      intro hx
      exact Status.noConfusion hx
  · intro r hrlt
    simp only [List.length_append, List.length_singleton] at hrlt
    rcases Nat.lt_or_ge r s.store.length with h | h
    · simp only [taskAt_eq_getD]
      rw [getD_append_left _ h]
      exact w.task_inv r h
    · have hreq : r = s.store.length := by omega
      subst hreq
      simp only [taskAt_eq_getD]
      rw [getD_append_length]
      refine ⟨hb, fun _ => hr, fun hc => ?_, fun _ => ⟨?_, ?_, ?_⟩⟩
      · rw [show ({ t with arrival_time := now } : Task).status = t.status from rfl, hst] at hc
        exact absurd hc (by intro hx; exact Status.noConfusion hx)
      · show (0 : Rat) < t.remaining_time
        rw [hr]
        exact hb
      · show t.remaining_time ≤ t.burst_time
        rw [hr]
      · show t.progress = min 100 (pyInt ((t.burst_time - t.remaining_time) / t.burst_time * 100))
        rw [hpg, hr, min_100_pyInt_zero_formula]

theorem WF_select (s : SchedState) (w : WF s) : WF (select_step s) := by
  have hperm := select_step_queue_perm s w.queue_sorted
  have hsorted := select_step_queue_sorted s w.queue_sorted
  constructor
  · rw [select_step_quantum]
    exact w.quantum_nonneg
  · intro r hr
    rw [select_step_store]
    exact w.queue_bound r (hperm.subset hr)
  · intro kv hkv
    rw [select_step_tasks] at hkv
    rw [select_step_store]
    exact w.table_bound kv hkv
  · exact hperm.symm.nodup w.queue_nodup
  · rw [show (select_step s).store = s.store from select_step_store s]
    exact hsorted
  · intro r hr
    have : (select_step s).taskAt r = s.taskAt r := by
      simp only [taskAt_eq_getD, select_step_store]
    rw [this]
    exact w.queue_not_completed r (hperm.subset hr)
  · intro r hr
    rw [select_step_store] at hr
    have : (select_step s).taskAt r = s.taskAt r := by
      simp only [taskAt_eq_getD, select_step_store]
    rw [this]
    exact w.task_inv r hr

theorem finalize_task_of_neg (s1 : SchedState) (ref : Nat) (now : Rat)
    (h0 : ¬ (s1.taskAt ref).remaining_time ≤ 0) :
    finalize_task s1 ref now = some (s1, false) := by
  unfold finalize_task
  rw [if_neg h0]

theorem finalize_task_of_pos (s1 : SchedState) (ref : Nat) (now : Rat)
    (h0 : (s1.taskAt ref).remaining_time ≤ 0) (hmem : ref ∈ s1.ready_queue) :
    finalize_task s1 ref now
      = some ({ s1 with
                store := s1.store.set ref (complete_task (s1.taskAt ref) now)
                ready_queue := s1.ready_queue.erase ref
                completed_tasks := s1.completed_tasks ++ [ref] }, true) := by
  unfold finalize_task
  rw [if_pos h0]
  dsimp only
  rw [listRemove_of_mem hmem]

theorem finalize_task_of_absent (s1 : SchedState) (ref : Nat) (now : Rat)
    (h0 : (s1.taskAt ref).remaining_time ≤ 0) (hmem : ref ∉ s1.ready_queue) :
    finalize_task s1 ref now = none := by
  unfold finalize_task
  rw [if_pos h0]
  dsimp only
  rw [listRemove_of_not_mem hmem]

theorem process_task_of_neg (s : SchedState) (ref : Nat) (now : Rat)
    (h0 : ¬ ((execute_slice s ref now).taskAt ref).remaining_time ≤ 0) :
    process_task s ref now = some (execute_slice s ref now, false) := by
  unfold process_task
  rw [finalize_task_of_neg _ _ _ h0]

theorem process_task_of_pos (s : SchedState) (ref : Nat) (now : Rat)
    (h0 : ((execute_slice s ref now).taskAt ref).remaining_time ≤ 0)
    (hmem : ref ∈ s.ready_queue) :
    process_task s ref now
      = some (loop_finalize_check
          ({ execute_slice s ref now with
              store := (execute_slice s ref now).store.set ref
                (complete_task ((execute_slice s ref now).taskAt ref) now)
              ready_queue := s.ready_queue.erase ref
              completed_tasks := s.completed_tasks ++ [ref] }) ref, true) := by
  unfold process_task
  rw [finalize_task_of_pos _ _ _ h0 (by rw [execute_slice_ready_queue]; exact hmem)]
  dsimp only
  rfl

theorem WF_process_neg (s : SchedState) (w : WF s) (ref : Nat) (now : Rat)
    (href : ref ∈ s.ready_queue)
    (h0 : ¬ ((execute_slice s ref now).taskAt ref).remaining_time ≤ 0) :
    WF (execute_slice s ref now) := by
  have hlen : ref < s.store.length := w.queue_bound ref href
  have hEq : (execute_slice s ref now).taskAt ref
      = slice_task s.time_quantum now (s.taskAt ref) := execute_slice_taskAt_self s now hlen
  have hnc : (s.taskAt ref).status ≠ Status.completed := w.queue_not_completed ref href
  obtain ⟨hb0, _, _, hncompinv⟩ := w.task_inv ref hlen
  obtain ⟨hrpos, hrle, _⟩ := hncompinv hnc
  rw [hEq] at h0
  have hprAll := prAt_set s.store ref (slice_task s.time_quantum now (s.taskAt ref))
    (slice_task_priority _ _ _)
  constructor
  · rw [execute_slice_quantum]
    exact w.quantum_nonneg
  · intro r hr
    rw [execute_slice_ready_queue] at hr
    rw [execute_slice_store]
    simpa using w.queue_bound r hr
  · intro kv hkv
    rw [execute_slice_tasks] at hkv
    rw [execute_slice_store]
    simpa using w.table_bound kv hkv
  · rw [execute_slice_ready_queue]
    exact w.queue_nodup
  · rw [execute_slice_ready_queue, execute_slice_store]
    exact w.queue_sorted.imp (fun {a b} hab => by
      rw [hprAll b, hprAll a]
      exact hab)
  · intro r hr
    rw [execute_slice_ready_queue] at hr
    rcases eq_or_ne r ref with rfl | hne
    · rw [execute_slice_taskAt_self s now hlen, slice_task_status]
      split
      · intro hx
        exact Status.noConfusion hx
      · exact w.queue_not_completed r hr
    · rw [execute_slice_taskAt_ne s now hne]
      exact w.queue_not_completed r hr
  · intro r hrl
    rw [execute_slice_store] at hrl
    simp only [List.length_set] at hrl
    rcases eq_or_ne r ref with rfl | hne
    · rw [execute_slice_taskAt_self s now hrl]
      refine ⟨?_, ?_, ?_, fun _ => ⟨?_, ?_, ?_⟩⟩
      · rw [slice_task_burst]
        exact hb0
      · intro hp
        rw [slice_task_status] at hp
        by_cases hop : (s.taskAt r).status = Status.pending
        · rw [if_pos hop] at hp
          exact Status.noConfusion hp
        · rw [if_neg hop] at hp
          exact absurd hp hop
      · intro hc
        rw [slice_task_status] at hc
        by_cases hop : (s.taskAt r).status = Status.pending
        · rw [if_pos hop] at hc
          exact Status.noConfusion hc
        · rw [if_neg hop] at hc
          exact absurd hc hnc
      · exact not_le.mp h0
      · rw [slice_task_remaining, slice_task_burst]
        have hmin : 0 ≤ min s.time_quantum (s.taskAt r).remaining_time :=
          le_min w.quantum_nonneg (le_of_lt hrpos)
        linarith
      · rw [slice_task_burst, slice_task_remaining, slice_task_progress _ _ _ hb0]
    · rw [execute_slice_taskAt_ne s now hne]
      exact w.task_inv r hrl

theorem process_task_completed (s : SchedState) (w : WF s) (ref : Nat) (now : Rat)
    (href : ref ∈ s.ready_queue)
    (h0 : ((execute_slice s ref now).taskAt ref).remaining_time ≤ 0) :
    process_task s ref now
      = some ({ execute_slice s ref now with
            store := (execute_slice s ref now).store.set ref
              (complete_task ((execute_slice s ref now).taskAt ref) now)
            ready_queue := s.ready_queue.erase ref
            completed_tasks := s.completed_tasks ++ [ref] }, true) := by
  rw [process_task_of_pos s ref now h0 href]
  congr 1
  congr 1
  apply loop_finalize_check_of
  · show ref ∉ s.ready_queue.erase ref
    intro hmem'
    exact ((w.queue_nodup.mem_erase_iff).1 hmem').1 rfl
  · show ref ∈ s.completed_tasks ++ [ref]
    simp

theorem WF_process_pos (s : SchedState) (w : WF s) (ref : Nat) (now : Rat)
    (href : ref ∈ s.ready_queue)
    (h0 : ((execute_slice s ref now).taskAt ref).remaining_time ≤ 0) :
    WF { execute_slice s ref now with
          store := (execute_slice s ref now).store.set ref
            (complete_task ((execute_slice s ref now).taskAt ref) now)
          ready_queue := s.ready_queue.erase ref
          completed_tasks := s.completed_tasks ++ [ref] } := by
  have hlen : ref < s.store.length := w.queue_bound ref href
  have hEq : (execute_slice s ref now).taskAt ref
      = slice_task s.time_quantum now (s.taskAt ref) := execute_slice_taskAt_self s now hlen
  have hnc : (s.taskAt ref).status ≠ Status.completed := w.queue_not_completed ref href
  obtain ⟨hb0, _, _, hncompinv⟩ := w.task_inv ref hlen
  obtain ⟨hrpos, hrle, _⟩ := hncompinv hnc
  have hrem1 : ((execute_slice s ref now).taskAt ref).remaining_time
      = (s.taskAt ref).remaining_time - min s.time_quantum (s.taskAt ref).remaining_time := by
    rw [hEq, slice_task_remaining]
  have hrem0 : ((execute_slice s ref now).taskAt ref).remaining_time = 0 := by
    refine le_antisymm h0 ?_
    rw [hrem1]
    have := min_le_right s.time_quantum (s.taskAt ref).remaining_time
    linarith
  have hpr1 : ((execute_slice s ref now).taskAt ref).priority = (s.taskAt ref).priority := by
    rw [hEq, slice_task_priority]
  have hb1 : ((execute_slice s ref now).taskAt ref).burst_time = (s.taskAt ref).burst_time := by
    rw [hEq, slice_task_burst]
  obtain ⟨hc_st, hc_rem, hc_b, hc_pr, hc_id, hc_pg, hc_ta, hc_wt, hc_ct⟩ :=
    complete_task_fields ((execute_slice s ref now).taskAt ref) now
  have hlen1 : ref < (execute_slice s ref now).store.length := by
    rw [execute_slice_store]
    simpa using hlen
  have hprAll1 := prAt_set s.store ref (slice_task s.time_quantum now (s.taskAt ref))
    (slice_task_priority _ _ _)
  have hprAll2 : ∀ r, prAt ((execute_slice s ref now).store.set ref
      (complete_task ((execute_slice s ref now).taskAt ref) now)) r = prAt s.store r := by
    intro r
    rw [prAt_set _ ref _ ?hpr r]
    case hpr =>
      rw [hc_pr, hpr1]
      show _ = prAt (s.store.set ref (slice_task s.time_quantum now (s.taskAt ref))) ref
      unfold prAt
      rw [getD_set_self _ _ hlen, slice_task_priority]
    · rw [execute_slice_store]
      exact hprAll1 r
  have htA : ({ execute_slice s ref now with
        store := (execute_slice s ref now).store.set ref
          (complete_task ((execute_slice s ref now).taskAt ref) now)
        ready_queue := s.ready_queue.erase ref
        completed_tasks := s.completed_tasks ++ [ref] } : SchedState).taskAt ref
      = complete_task ((execute_slice s ref now).taskAt ref) now := by
    simp only [taskAt_eq_getD]
    rw [getD_set_self _ _ (by rw [execute_slice_store]; simpa using hlen)]
  constructor
  · exact w.quantum_nonneg
  · intro r hr
    have hr' : r ∈ s.ready_queue := List.mem_of_mem_erase hr
    show r < ((execute_slice s ref now).store.set ref _).length
    rw [List.length_set, execute_slice_store, List.length_set]
    exact w.queue_bound r hr'
  · intro kv hkv
    show kv.2 < ((execute_slice s ref now).store.set ref _).length
    rw [List.length_set, execute_slice_store, List.length_set]
    exact w.table_bound kv hkv
  · exact w.queue_nodup.erase _
  · refine (w.queue_sorted.sublist (List.erase_sublist _ _)).imp (fun {a b} hab => ?_)
    dsimp only
    rw [hprAll2 a, hprAll2 b]
    exact hab
  · intro r hr
    have hr' : r ∈ s.ready_queue := List.mem_of_mem_erase hr
    have hne : r ≠ ref := by
      intro hc
      subst hc
      exact ((w.queue_nodup.mem_erase_iff).1 hr).1 rfl
    show (({ execute_slice s ref now with
            store := (execute_slice s ref now).store.set ref
              (complete_task ((execute_slice s ref now).taskAt ref) now)
            ready_queue := s.ready_queue.erase ref
            completed_tasks := s.completed_tasks ++ [ref] } : SchedState).taskAt r).status
        ≠ Status.completed
    simp only [taskAt_eq_getD]
    rw [getD_set_ne _ _ (Ne.symm hne), execute_slice_store, getD_set_ne _ _ (Ne.symm hne)]
    exact w.queue_not_completed r hr'
  · intro r hrl
    simp only [List.length_set, execute_slice_store] at hrl
    rcases eq_or_ne r ref with rfl | hne
    · rw [htA]
      refine ⟨?_, ?_, fun _ => ⟨?_, ?_, ?_⟩, ?_⟩
      · rw [hc_b, hb1]
        exact hb0
      · intro hp
        rw [hc_st] at hp
        exact Status.noConfusion hp
      · rw [hc_rem, hrem0]
      · rw [hc_pg]
      · rw [hc_wt, hc_ta, hc_b, hc_rem]
        ring
      · intro hcmp
        rw [hc_st] at hcmp
        exact absurd rfl hcmp
    · simp only [taskAt_eq_getD]
      rw [getD_set_ne _ _ (Ne.symm hne), execute_slice_store, getD_set_ne _ _ (Ne.symm hne)]
      exact w.task_inv r hrl

theorem WF_process (s : SchedState) (w : WF s) (ref : Nat) (now : Rat)
    (href : ref ∈ s.ready_queue) {s' : SchedState} {b : Bool}
    (h : process_task s ref now = some (s', b)) : WF s' := by
  by_cases h0 : ((execute_slice s ref now).taskAt ref).remaining_time ≤ 0
  · rw [process_task_completed s w ref now href h0] at h
    simp only [Option.some.injEq, Prod.mk.injEq] at h
    obtain ⟨h1, _⟩ := h
    rw [← h1]
    exact WF_process_pos s w ref now href h0
  · rw [process_task_of_neg s ref now h0] at h
    simp only [Option.some.injEq, Prod.mk.injEq] at h
    obtain ⟨h1, _⟩ := h
    rw [← h1]
    exact WF_process_neg s w ref now href h0

theorem WF_init (q : Rat) (hq : 0 ≤ q) : WF (initScheduler q) := by
  constructor
  · exact hq
  · intro r hr
    simp [initScheduler] at hr
  · intro kv hkv
    simp [initScheduler] at hkv
  · exact List.nodup_nil
  · exact List.Pairwise.nil
  · intro r hr
    simp [initScheduler] at hr
  · intro r hr
    simp [initScheduler] at hr

theorem WF_step {f : Bool} {s s' : SchedState} (w : WF s) (h : StepG f s s') : WF s' := by
  cases h with
  | add task_id nm pr b d c now hb hfresh => exact WF_add s w _ now hb rfl rfl rfl
  | update task_id p hb => exact WF_update s w task_id p hb
  | del task_id => exact WF_delete s w task_id
  | select => exact WF_select s w
  | process ref now s' b href hp => exact WF_process s w ref now href hp

theorem reachable_WF {f : Bool} {s : SchedState} (h : ReachableG f s) : WF s := by
  induction h with
  | init q hq => exact WF_init q hq
  | step hr hstep ih => exact WF_step ih hstep

theorem taskAt_set_id (s : SchedState) (ref : Nat) (t' : Task)
    (hid : t'.task_id = (s.taskAt ref).task_id) :
    ∀ r, (((s.store.set ref t').getD r taskDefault)).task_id
      = (s.taskAt r).task_id := by
  intro r
  rcases eq_or_ne r ref with rfl | hne
  · rcases Nat.lt_or_ge r s.store.length with hlt | hge
    · rw [getD_set_self _ _ hlt]
      exact hid
    · rw [getD_set_out _ _ hge]
      rfl
  · rw [getD_set_ne _ _ (Ne.symm hne)]
    rfl

theorem Corr_of_eq (s s' : SchedState) (hc : TableQueueCorr s)
    (htab : s'.tasks = s.tasks)
    (hq : ∀ r, r ∈ s'.ready_queue → r ∈ s.ready_queue)
    (hid : ∀ r ∈ s'.ready_queue, (s'.taskAt r).task_id = (s.taskAt r).task_id) :
    TableQueueCorr s' := by
  intro r hr
  rw [htab, hid r hr]
  exact hc r (hq r hr)

theorem Corr_add (s : SchedState) (w : WF s) (hc : TableQueueCorr s)
    (t : Task) (now : Rat) (hfresh : dictGet s.tasks t.task_id = none) :
    TableQueueCorr (add_task s t now).1 := by
  intro r hr
  unfold add_task at hr ⊢
  dsimp only at hr ⊢
  rcases List.mem_append.1 (mem_sortQueue.1 hr) with h | h
  · have hlt := w.queue_bound r h
    have hidr : ((s.store ++ [{ t with arrival_time := now }]).getD r taskDefault).task_id
        = (s.taskAt r).task_id := by
      rw [getD_append_left _ hlt]
      rfl
    simp only [taskAt_eq_getD]
    rw [hidr]
    have hold := hc r h
    have hne : (s.taskAt r).task_id ≠ t.task_id := by
      intro he
      rw [he] at hold
      rw [hold] at hfresh
      exact Option.noConfusion hfresh
    rw [dictGet_dictSet_ne _ _ hne]
    exact hold
  · simp only [List.mem_singleton] at h
    subst h
    simp only [taskAt_eq_getD]
    rw [getD_append_length]
    exact dictGet_dictSet_self _ _ _

theorem getD_set_id (store : List Task) (ref : Nat) (t' : Task)
    (hid : t'.task_id = (store.getD ref taskDefault).task_id) :
    ∀ r, ((store.set ref t').getD r taskDefault).task_id
      = (store.getD r taskDefault).task_id := by
  intro r
  rcases eq_or_ne r ref with rfl | hne
  · rcases Nat.lt_or_ge r store.length with hlt | hge
    · rw [getD_set_self _ _ hlt]
      exact hid
    · rw [getD_set_out _ _ hge]
  · rw [getD_set_ne _ _ (Ne.symm hne)]

theorem Corr_update_name (s : SchedState) (hc : TableQueueCorr s) (ref : Nat)
    (o : Option String) : TableQueueCorr (update_name s ref o) := by
  cases o with
  | none => exact hc
  | some n =>
      refine Corr_of_eq s _ hc rfl (fun r hr => hr) ?_
      intro r _
      simp only [update_name, taskAt_eq_getD]
      exact getD_set_id s.store ref _ (by rfl) r

theorem Corr_update_description (s : SchedState) (hc : TableQueueCorr s) (ref : Nat)
    (o : Option String) : TableQueueCorr (update_description s ref o) := by
  cases o with
  | none => exact hc
  | some d =>
      refine Corr_of_eq s _ hc rfl (fun r hr => hr) ?_
      intro r _
      simp only [update_description, taskAt_eq_getD]
      exact getD_set_id s.store ref _ (by rfl) r

theorem Corr_update_priority (s : SchedState) (hc : TableQueueCorr s) (ref : Nat)
    (o : Option Int) : TableQueueCorr (update_priority s ref o) := by
  cases o with
  | none => exact hc
  | some pr =>
      unfold update_priority
      dsimp only
      split
      case isTrue hmem =>
        refine Corr_of_eq s _ hc rfl ?_ ?_
        · intro r hr
          rcases List.mem_append.1 (mem_sortQueue.1 hr) with h | h
          · exact List.mem_of_mem_erase h
          · simp only [List.mem_singleton] at h
            subst h
            simpa using hmem
        · intro r _
          simp only [taskAt_eq_getD]
          exact getD_set_id s.store ref _ (by rfl) r
      case isFalse =>
        refine Corr_of_eq s _ hc rfl (fun r hr => hr) ?_
        intro r _
        simp only [taskAt_eq_getD]
        exact getD_set_id s.store ref _ (by rfl) r

theorem Corr_update_burst (s : SchedState) (hc : TableQueueCorr s) (ref : Nat)
    (o : Option Rat) : TableQueueCorr (update_burst s ref o) := by
  cases o with
  | none => exact hc
  | some nb =>
      unfold update_burst
      dsimp only
      split
      · refine Corr_of_eq s _ hc rfl (fun r hr => hr) ?_
        intro r _
        simp only [taskAt_eq_getD]
        exact getD_set_id s.store ref _ (by rfl) r
      · exact hc

theorem Corr_update (s : SchedState) (hc : TableQueueCorr s) (task_id : String)
    (p : Patch) : TableQueueCorr (update_task s task_id p).1 := by
  unfold update_task
  cases hg : dictGet s.tasks task_id with
  | none => exact hc
  | some ref =>
      dsimp only
      split
      · exact Corr_update_burst _
          (Corr_update_priority _
            (Corr_update_description _ (Corr_update_name s hc ref p.name) ref p.description)
            ref p.priority)
          ref p.burst_time
      · exact hc

theorem delete_task_fields (s : SchedState) (w : WF s) (task_id : String) (ref : Nat)
    (hg : dictGet s.tasks task_id = some ref) :
    (delete_task s task_id).1.store = s.store
    ∧ (delete_task s task_id).1.tasks = dictDel s.tasks task_id
    ∧ ((s.taskAt ref).status = Status.completed →
        (delete_task s task_id).1.ready_queue = s.ready_queue)
    ∧ ((s.taskAt ref).status ≠ Status.completed →
        ref ∉ (delete_task s task_id).1.ready_queue
        ∧ ∀ r, r ∈ (delete_task s task_id).1.ready_queue → r ∈ s.ready_queue) := by
  unfold delete_task
  rw [hg]
  dsimp only
  split
  case isTrue hcomp =>
    split
    · exact ⟨rfl, rfl, fun _ => rfl, fun hn => absurd hcomp hn⟩
    · exact ⟨rfl, rfl, fun _ => rfl, fun hn => absurd hcomp hn⟩
  case isFalse hcomp =>
    split
    case isTrue hmem =>
      refine ⟨rfl, rfl, fun hcc => absurd hcc hcomp, fun _ => ⟨?_, ?_⟩⟩
      · show ref ∉ s.ready_queue.erase ref
        intro hmem'
        exact ((w.queue_nodup.mem_erase_iff).1 hmem').1 rfl
      · intro r hr
        exact List.mem_of_mem_erase hr
    case isFalse hmem =>
      exact ⟨rfl, rfl, fun hcc => absurd hcc hcomp, fun _ => ⟨hmem, fun r hr => hr⟩⟩

theorem Corr_delete (s : SchedState) (w : WF s) (hc : TableQueueCorr s)
    (task_id : String) : TableQueueCorr (delete_task s task_id).1 := by
  cases hg : dictGet s.tasks task_id with
  | none =>
      unfold delete_task
      rw [hg]
      exact hc
  | some ref =>
      obtain ⟨hstore, htasks, hqcomp, hqrun⟩ := delete_task_fields s w task_id ref hg
      intro r hr
      have hidr : (delete_task s task_id).1.taskAt r = s.taskAt r := by
        simp only [taskAt_eq_getD, hstore]
      rw [htasks, hidr]
      by_cases hcomp : (s.taskAt ref).status = Status.completed
      · rw [hqcomp hcomp] at hr
        have hneid : (s.taskAt r).task_id ≠ task_id := by
          intro he
          have hthis := hc r hr
          rw [he, hg] at hthis
          have hrref : r = ref := by simpa using hthis.symm
          subst hrref
          exact w.queue_not_completed r hr hcomp
        rw [dictGet_dictDel_ne _ hneid]
        exact hc r hr
      · obtain ⟨hnotin, hsub⟩ := hqrun hcomp
        have hrq : r ∈ s.ready_queue := hsub r hr
        have hne : r ≠ ref := by
          intro he
          subst he
          exact hnotin hr
        have hneid : (s.taskAt r).task_id ≠ task_id := by
          intro he
          have hthis := hc r hrq
          rw [he, hg] at hthis
          exact hne (by simpa using hthis.symm)
        rw [dictGet_dictDel_ne _ hneid]
        exact hc r hrq

theorem Corr_select (s : SchedState) (w : WF s) (hc : TableQueueCorr s) :
    TableQueueCorr (select_step s) := by
  refine Corr_of_eq s _ hc (select_step_tasks s) ?_ ?_
  · intro r hr
    exact (select_step_queue_perm s w.queue_sorted).subset hr
  · intro r _
    simp only [taskAt_eq_getD, select_step_store]

theorem Corr_process (s : SchedState) (w : WF s) (hc : TableQueueCorr s)
    (ref : Nat) (now : Rat) (href : ref ∈ s.ready_queue) {s' : SchedState} {b : Bool}
    (h : process_task s ref now = some (s', b)) : TableQueueCorr s' := by
  have hlen : ref < s.store.length := w.queue_bound ref href
  have hEq : (execute_slice s ref now).taskAt ref
      = slice_task s.time_quantum now (s.taskAt ref) := execute_slice_taskAt_self s now hlen
  by_cases h0 : ((execute_slice s ref now).taskAt ref).remaining_time ≤ 0
  · rw [process_task_completed s w ref now href h0] at h
    simp only [Option.some.injEq, Prod.mk.injEq] at h
    obtain ⟨h1, _⟩ := h
    rw [← h1]
    refine Corr_of_eq s _ hc rfl ?_ ?_
    · intro r hr
      exact List.mem_of_mem_erase hr
    · intro r _
      show (((execute_slice s ref now).store.set ref
          (complete_task ((execute_slice s ref now).taskAt ref) now)).getD r taskDefault).task_id
        = (s.taskAt r).task_id
      have hid2 : (complete_task ((execute_slice s ref now).taskAt ref) now).task_id
          = ((execute_slice s ref now).store.getD ref taskDefault).task_id := by
        obtain ⟨_, _, _, _, hc_id, _, _, _, _⟩ :=
          complete_task_fields ((execute_slice s ref now).taskAt ref) now
        rw [hc_id]
        rfl
      rw [getD_set_id _ ref _ hid2 r]
      show ((execute_slice s ref now).taskAt r).task_id = (s.taskAt r).task_id
      simp only [taskAt_eq_getD, execute_slice_store]
      exact getD_set_id s.store ref _ (by rw [slice_task_task_id]) r
  · rw [process_task_of_neg s ref now h0] at h
    simp only [Option.some.injEq, Prod.mk.injEq] at h
    obtain ⟨h1, _⟩ := h
    rw [← h1]
    refine Corr_of_eq s _ hc rfl
      (fun r hr => by rwa [execute_slice_ready_queue] at hr) ?_
    intro r _
    show ((execute_slice s ref now).taskAt r).task_id = (s.taskAt r).task_id
    simp only [taskAt_eq_getD, execute_slice_store]
    exact getD_set_id s.store ref _ (by rw [slice_task_task_id]) r

theorem Corr_step {s s' : SchedState} (w : WF s) (hc : TableQueueCorr s)
    (h : StepG true s s') : TableQueueCorr s' := by
  cases h with
  | add task_id nm pr b d c now hb hfresh => exact Corr_add s w hc _ now (hfresh rfl)
  | update task_id p hb => exact Corr_update s hc task_id p
  | del task_id => exact Corr_delete s w hc task_id
  | select => exact Corr_select s w hc
  | process ref now s' b href hp => exact Corr_process s w hc ref now href hp

theorem reachableFresh_corr {s : SchedState} (h : ReachableG true s) :
    TableQueueCorr s := by
  induction h with
  | init q hq =>
      intro r hr
      simp [initScheduler] at hr
  | step hr hstep ih => exact Corr_step (reachable_WF hr) ih hstep

/-- Task used in the concrete finalize/delete race run. -/
def c1Task : Task := Task.init "a" "job" 5 1 "" 0

/-- State after `add_task` of a single 1-second task on a quantum-1 engine. -/
def c1State1 : SchedState := (add_task (initScheduler 1) c1Task 0).1

/-- State after the loop's select phase picks the task. -/
def c1State2 : SchedState := select_step c1State1

/-- State after the slice executes (outside the lock): the task's
`remaining_time` reaches 0, so finalize is about to run. -/
def c1State3 : SchedState := execute_slice c1State2 0 0

/-- State after a concurrent `delete_task` lands between the slice and the
finalize critical section: the task is gone from the ready queue. -/
def c1State4 : SchedState := (delete_task c1State3 "a").1

theorem c1State1_eq : c1State1 =
    { store := [c1Task], tasks := [("a", 0)], ready_queue := [0],
      time_quantum := 1, execution_sequence := [], completed_tasks := [],
      idle := false, running := false, current_task := none } := by
  simp [c1State1, add_task, initScheduler, sortQueue, dictSet, c1Task, Task.init]

theorem c1State2_eq : c1State2 =
    { store := [c1Task], tasks := [("a", 0)], ready_queue := [0],
      time_quantum := 1, execution_sequence := [], completed_tasks := [],
      idle := false, running := false, current_task := some 0 } := by
  rw [c1State2, c1State1_eq]
  simp [select_step, prAt, c1Task, Task.init, List.getD]

/-- The task object after its only slice: running, `remaining_time = 0`. -/
def c1TaskSliced : Task :=
  { task_id := "a", name := "job", description := "", priority := 5,
    burst_time := 1, created_at := 0, arrival_time := 0, remaining_time := 0,
    waiting_time := 0, turnaround_time := 0, completion_time := none,
    response_time := 0, last_execution_time := 0, status := Status.running,
    progress := 100 }

theorem c1State3_eq : c1State3 =
    { store := [c1TaskSliced], tasks := [("a", 0)], ready_queue := [0],
      time_quantum := 1, execution_sequence := [("a", 0, 1)], completed_tasks := [],
      idle := false, running := false, current_task := some 0 } := by
  rw [c1State3, c1State2_eq]
  norm_num [execute_slice, slice_task, SchedState.taskAt, List.getD, c1Task, Task.init,
    c1TaskSliced, pyInt]

theorem running_ne_completed_eq : (Status.running = Status.completed) = False :=
  eq_false (fun h => Status.noConfusion h)

theorem pending_ne_completed_eq : (Status.pending = Status.completed) = False :=
  eq_false (fun h => Status.noConfusion h)

theorem completed_eq_completed_eq : (Status.completed = Status.completed) = True :=
  eq_true rfl

theorem pending_eq_pending_eq : (Status.pending = Status.pending) = True :=
  eq_true rfl

theorem running_ne_pending_eq : (Status.running = Status.pending) = False :=
  eq_false (fun h => Status.noConfusion h)

theorem completed_ne_pending_eq : (Status.completed = Status.pending) = False :=
  eq_false (fun h => Status.noConfusion h)

theorem c1State4_eq : c1State4 =
    { store := [c1TaskSliced], tasks := [], ready_queue := [],
      time_quantum := 1, execution_sequence := [("a", 0, 1)], completed_tasks := [],
      idle := false, running := false, current_task := some 0 } := by
  rw [c1State4, c1State3_eq]
  norm_num [delete_task, dictGet, dictDel, SchedState.taskAt, List.getD, c1TaskSliced,
    List.erase_cons, running_ne_completed_eq]

/-- Claim C1 (code bug).  The spec requires finalize to re-check queue
membership before removing the completed task, tolerating a concurrent
`delete_task`.  In the code the removal inside `_process_task`
(src/app/task_scheduler.py line 144) is unconditional: in the concrete run
below the slice brings `remaining_time` to 0, a concurrent delete then
empties the ready queue, and the finalize step's removal raises
`ValueError` (modelled as `none`).  Only the scheduler loop's later
re-check (lines 203-208, modelled by `loop_finalize_check`) is defensive,
as the last conjunct shows — but it runs after the raising removal. -/
theorem finalize_after_delete_raises :
    (delete_task c1State3 "a").2 = true
    ∧ (c1State3.taskAt 0).remaining_time = 0
    ∧ 0 ∉ c1State4.ready_queue
    ∧ finalize_task c1State4 0 1 = none
    ∧ loop_finalize_check c1State4 0
        = { c1State4 with completed_tasks := c1State4.completed_tasks ++ [0] } := by
  refine ⟨?_, ?_, ?_, ?_, ?_⟩
  · rw [c1State3_eq]
    norm_num [delete_task, dictGet, dictDel, SchedState.taskAt, List.getD, c1TaskSliced,
      running_ne_completed_eq]
  · rw [c1State3_eq]
    norm_num [SchedState.taskAt, List.getD, c1TaskSliced]
  · rw [c1State4_eq]
    simp
  · rw [c1State4_eq]
    norm_num [finalize_task, SchedState.taskAt, List.getD, c1TaskSliced, listRemove]
  · rw [c1State4_eq]
    simp [loop_finalize_check]

/-- Claim C2: in every reachable engine state the ready queue is sorted by
priority descending.  When the select step finds at least two ready tasks
sharing the head's priority it removes the head and re-inserts it
immediately after the last task of that priority: the queue becomes the
head's remaining priority group followed by the head and then the
strictly-lower-priority tasks, still sorted.  `add_task` appends the new
reference and stable-sorts by priority descending: the new queue is exactly
that sort, it is sorted, and every equal-priority pair keeps its relative
order. -/
theorem ready_queue_order_invariant (s : SchedState) (hs : Reachable s) :
    s.ready_queue.Pairwise (fun a b => prAt s.store b ≤ prAt s.store a)
    ∧ (∀ hd rest, s.ready_queue = hd :: rest →
        1 < s.ready_queue.countP (fun r => decide (prAt s.store r = prAt s.store hd)) →
        (select_step s).ready_queue
          = rest.takeWhile (fun r => decide (prAt s.store r = prAt s.store hd))
            ++ hd :: rest.dropWhile (fun r => decide (prAt s.store r = prAt s.store hd))
        ∧ (∀ x ∈ rest.dropWhile (fun r => decide (prAt s.store r = prAt s.store hd)),
            prAt s.store x < prAt s.store hd)
        ∧ (select_step s).ready_queue.Pairwise
            (fun a b => prAt s.store b ≤ prAt s.store a))
    ∧ (∀ t now,
        (add_task s t now).1.ready_queue
          = sortQueue (add_task s t now).1.store (s.ready_queue ++ [(add_task s t now).2])
        ∧ (add_task s t now).1.ready_queue.Pairwise
            (fun a b => prAt (add_task s t now).1.store b ≤ prAt (add_task s t now).1.store a)
        ∧ ∀ a b, [a, b].Sublist (s.ready_queue ++ [(add_task s t now).2]) →
            prAt (add_task s t now).1.store a = prAt (add_task s t now).1.store b →
            [a, b].Sublist (add_task s t now).1.ready_queue) := by
  have w : WF s := reachable_WF hs
  refine ⟨w.queue_sorted, ?_, ?_⟩
  · intro hd rest hq hcnt
    refine ⟨select_step_rotated s hd rest hq w.queue_sorted hcnt, ?_, ?_⟩
    · have hsorted := w.queue_sorted
      rw [hq] at hsorted
      exact dropWhile_pr_lt s.store (prAt s.store hd) rest
        (List.pairwise_cons.1 hsorted).2 (List.pairwise_cons.1 hsorted).1
    · exact select_step_queue_sorted s w.queue_sorted
  · intro t now
    refine ⟨rfl, sortQueue_sorted _ _, ?_⟩
    intro a b hab heq
    exact sortQueue_stable hab (le_of_eq heq.symm)

/-- First task of the two-equal-priority example run. -/
def c2a : Task := Task.init "a" "t" 5 3 "" 0

/-- Second task of the two-equal-priority example run. -/
def c2b : Task := Task.init "b" "t" 5 4 "" 0

/-- Engine state after adding two priority-5 tasks to a fresh quantum-1
engine. -/
def c2Ex : SchedState := (add_task (add_task (initScheduler 1) c2a 0).1 c2b 0).1

theorem c2Ex_reachable : Reachable c2Ex :=
  ReachableG.step
    (ReachableG.step (ReachableG.init 1 (by norm_num))
      (StepG.add (initScheduler 1) "a" "t" 5 3 "" 0 0 (by norm_num)
        (fun h => Bool.noConfusion h)))
    (StepG.add (add_task (initScheduler 1) c2a 0).1 "b" "t" 5 4 "" 0 0 (by norm_num)
      (fun h => Bool.noConfusion h))

theorem ready_queue_order_invariant_witness :
    c2Ex.ready_queue.Pairwise (fun a b => prAt c2Ex.store b ≤ prAt c2Ex.store a) :=
  (ready_queue_order_invariant c2Ex c2Ex_reachable).1

/-- Claim C3: along validated runs (positive burst times, nonnegative
quantum — the request layer validates ranges before the engine per spec §6,
so the out-of-range burst_time edge case never arises), every task of every
reachable state satisfies `0 ≤ remaining_time ≤ burst_time`; moreover each
executed slice decrements `remaining_time` by exactly
`min(time_quantum, remaining_time)`, and that decrement never drives a
nonnegative remaining time below zero. -/
theorem remaining_time_bounds (s : SchedState) (hs : Reachable s) :
    (∀ r, r < s.store.length →
      0 ≤ (s.taskAt r).remaining_time
      ∧ (s.taskAt r).remaining_time ≤ (s.taskAt r).burst_time)
    ∧ (∀ ref now, ref < s.store.length →
        ((execute_slice s ref now).taskAt ref).remaining_time
          = (s.taskAt ref).remaining_time
            - min s.time_quantum (s.taskAt ref).remaining_time)
    ∧ (∀ ref now, ref < s.store.length → 0 ≤ (s.taskAt ref).remaining_time →
        0 ≤ ((execute_slice s ref now).taskAt ref).remaining_time) := by
  have w := reachable_WF hs
  refine ⟨?_, ?_, ?_⟩
  · intro r hr
    obtain ⟨hb0, _, hcomp, hncomp⟩ := w.task_inv r hr
    by_cases hc : (s.taskAt r).status = Status.completed
    · obtain ⟨h0, _, _⟩ := hcomp hc
      rw [h0]
      exact ⟨le_refl 0, le_of_lt hb0⟩
    · obtain ⟨h1, h2, _⟩ := hncomp hc
      exact ⟨le_of_lt h1, h2⟩
  · intro ref now href
    rw [execute_slice_taskAt_self s now href, slice_task_remaining]
  · intro ref now href _
    rw [execute_slice_taskAt_self s now href, slice_task_remaining]
    have hmr := min_le_right s.time_quantum (s.taskAt ref).remaining_time
    linarith

theorem remaining_time_bounds_witness :
    0 ≤ (c2Ex.taskAt 0).remaining_time
    ∧ (c2Ex.taskAt 0).remaining_time ≤ (c2Ex.taskAt 0).burst_time :=
  (remaining_time_bounds c2Ex c2Ex_reachable).1 0
    (by norm_num [c2Ex, add_task, initScheduler])

/-- Claim C4: in every reachable state, a completed task satisfies
`waiting_time + (burst_time − remaining_time) = turnaround_time`; since
`remaining_time = 0` at completion this reduces to
`waiting_time + burst_time = turnaround_time`. -/
theorem completed_time_law (s : SchedState) (hs : Reachable s) :
    ∀ r, r < s.store.length → (s.taskAt r).status = Status.completed →
      (s.taskAt r).waiting_time
          + ((s.taskAt r).burst_time - (s.taskAt r).remaining_time)
        = (s.taskAt r).turnaround_time
      ∧ (s.taskAt r).remaining_time = 0
      ∧ (s.taskAt r).waiting_time + (s.taskAt r).burst_time
        = (s.taskAt r).turnaround_time := by
  have w := reachable_WF hs
  intro r hr hc
  obtain ⟨_, _, hcomp, _⟩ := w.task_inv r hr
  obtain ⟨h0, _, hlaw⟩ := hcomp hc
  refine ⟨hlaw, h0, ?_⟩
  rw [← hlaw, h0]
  ring

/-- Scenario A task: burst 3 under quantum 2 (spec §8). -/
def scA : Task := Task.init "t1" "n" 1 3 "" 0

/-- Scenario A: fresh quantum-2 engine after `add_task`. -/
def scAs1 : SchedState := (add_task (initScheduler 2) scA 0).1

/-- Scenario A: after the first select. -/
def scAs2 : SchedState := select_step scAs1

theorem scAs1_eq : scAs1 =
    { store := [scA], tasks := [("t1", 0)], ready_queue := [0],
      time_quantum := 2, execution_sequence := [], completed_tasks := [],
      idle := false, running := false, current_task := none } := by
  simp [scAs1, add_task, initScheduler, sortQueue, dictSet, scA, Task.init]

theorem scAs2_eq : scAs2 =
    { store := [scA], tasks := [("t1", 0)], ready_queue := [0],
      time_quantum := 2, execution_sequence := [], completed_tasks := [],
      idle := false, running := false, current_task := some 0 } := by
  rw [scAs2, scAs1_eq]
  simp [select_step, prAt, scA, Task.init, List.getD]

/-- Scenario A task object after slice 1: `remaining_time = 1`,
`progress = 66`, running. -/
def scAtask1 : Task :=
  { task_id := "t1", name := "n", description := "", priority := 1,
    burst_time := 3, created_at := 0, arrival_time := 0, remaining_time := 1,
    waiting_time := 0, turnaround_time := 0, completion_time := none,
    response_time := 0, last_execution_time := 0, status := Status.running,
    progress := 66 }

/-- Scenario A state after slice 1. -/
def scAs3 : SchedState :=
  { store := [scAtask1], tasks := [("t1", 0)], ready_queue := [0],
    time_quantum := 2, execution_sequence := [("t1", 0, 2)], completed_tasks := [],
    idle := false, running := false, current_task := some 0 }

theorem scA_proc1 : process_task scAs2 0 0 = some (scAs3, false) := by
  rw [scAs2_eq]
  norm_num [process_task, finalize_task, execute_slice, slice_task, SchedState.taskAt,
    List.getD, scA, Task.init, pyInt, scAs3, scAtask1]

/-- Scenario A: second select (no rotation, single task). -/
def scAs4 : SchedState := select_step scAs3

theorem scAs4_eq : scAs4 = scAs3 := by
  rw [scAs4]
  simp [scAs3, select_step, prAt, scAtask1, List.getD]

/-- Scenario A task object after slice 2 and finalize: completed with
`remaining_time = 0`, `progress = 100`.  The slice and completion stamps use
the loop time 2, so `turnaround_time = 2` and
`waiting_time = 2 − (3 − 0) = −1`. -/
def scAtask2 : Task :=
  { task_id := "t1", name := "n", description := "", priority := 1,
    burst_time := 3, created_at := 0, arrival_time := 0, remaining_time := 0,
    waiting_time := -1, turnaround_time := 2, completion_time := some 2,
    response_time := 0, last_execution_time := 2, status := Status.completed,
    progress := 100 }

/-- Scenario A final state: the task has moved to the completed list. -/
def scAs5 : SchedState :=
  { store := [scAtask2], tasks := [("t1", 0)], ready_queue := [],
    time_quantum := 2, execution_sequence := [("t1", 0, 2), ("t1", 2, 3)],
    completed_tasks := [0], idle := false, running := false,
    current_task := some 0 }

theorem scA_proc2 : process_task scAs4 0 2 = some (scAs5, true) := by
  rw [scAs4_eq]
  norm_num [process_task, finalize_task, execute_slice, slice_task, loop_finalize_check,
    SchedState.taskAt, List.getD, scAs3, scAtask1, pyInt, listRemove, complete_task,
    running_ne_pending_eq, scAs5, scAtask2]

theorem scAs5_reachable : Reachable scAs5 := by
  have r1 : Reachable scAs1 :=
    ReachableG.step (ReachableG.init 2 (by norm_num))
      (StepG.add (initScheduler 2) "t1" "n" 1 3 "" 0 0 (by norm_num)
        (fun h => Bool.noConfusion h))
  have r2 : Reachable scAs2 := ReachableG.step r1 (StepG.select scAs1)
  have r3 : Reachable scAs3 :=
    ReachableG.step r2 (StepG.process scAs2 0 0 scAs3 false
      (by rw [scAs2_eq]; simp) scA_proc1)
  have r4 : Reachable scAs4 := ReachableG.step r3 (StepG.select scAs3)
  exact ReachableG.step r4 (StepG.process scAs4 0 2 scAs5 true
    (by rw [scAs4_eq]; simp [scAs3]) scA_proc2)

theorem completed_time_law_witness :
    (scAs5.taskAt 0).waiting_time
        + ((scAs5.taskAt 0).burst_time - (scAs5.taskAt 0).remaining_time)
      = (scAs5.taskAt 0).turnaround_time
    ∧ (scAs5.taskAt 0).remaining_time = 0
    ∧ (scAs5.taskAt 0).waiting_time + (scAs5.taskAt 0).burst_time
      = (scAs5.taskAt 0).turnaround_time :=
  completed_time_law scAs5 scAs5_reachable 0 (by simp [scAs5])
    (by simp [scAs5, SchedState.taskAt, List.getD, scAtask2])

/-- Claim C8: in every reachable state (validated inputs), a task's
`progress` is 100 exactly when its status is completed, and otherwise
`progress = ⌊100 × (burst_time − remaining_time) / burst_time⌋` clamped to
[0, 100].  Concretely (spec §8 Scenario A, quantum 2, burst 3): slice 1
leaves `remaining_time = 1`, `progress = 66`, status running; slice 2 leaves
`remaining_time = 0`, `progress = 100`, status completed. -/
theorem progress_completion (s : SchedState) (hs : Reachable s) :
    (∀ r, r < s.store.length →
      (((s.taskAt r).progress = 100) ↔ (s.taskAt r).status = Status.completed)
      ∧ ((s.taskAt r).status ≠ Status.completed →
          (s.taskAt r).progress
            = max 0 (min 100
                ⌊100 * (((s.taskAt r).burst_time - (s.taskAt r).remaining_time)
                  / (s.taskAt r).burst_time)⌋)))
    ∧ (process_task scAs2 0 0 = some (scAs3, false)
        ∧ (scAs3.taskAt 0).remaining_time = 1
        ∧ (scAs3.taskAt 0).progress = 66
        ∧ (scAs3.taskAt 0).status = Status.running
        ∧ process_task scAs4 0 2 = some (scAs5, true)
        ∧ (scAs5.taskAt 0).remaining_time = 0
        ∧ (scAs5.taskAt 0).progress = 100
        ∧ (scAs5.taskAt 0).status = Status.completed) := by
  have w := reachable_WF hs
  constructor
  · intro r hr
    obtain ⟨hb0, _, hcomp, hncomp⟩ := w.task_inv r hr
    have key : (s.taskAt r).status ≠ Status.completed →
        ((s.taskAt r).progress
          = ⌊((s.taskAt r).burst_time - (s.taskAt r).remaining_time)
              / (s.taskAt r).burst_time * 100⌋
        ∧ (s.taskAt r).progress < 100
        ∧ 0 ≤ (s.taskAt r).progress) := by
      intro hc
      obtain ⟨hr1, hr2, hpg⟩ := hncomp hc
      have hxnn : 0 ≤ ((s.taskAt r).burst_time - (s.taskAt r).remaining_time)
          / (s.taskAt r).burst_time * 100 := by
        apply mul_nonneg _ (by norm_num)
        exact div_nonneg (by linarith) (le_of_lt hb0)
      have hxlt : ((s.taskAt r).burst_time - (s.taskAt r).remaining_time)
          / (s.taskAt r).burst_time * 100 < 100 := by
        have hq : ((s.taskAt r).burst_time - (s.taskAt r).remaining_time)
            / (s.taskAt r).burst_time < 1 := (div_lt_one hb0).2 (by linarith)
        calc ((s.taskAt r).burst_time - (s.taskAt r).remaining_time)
            / (s.taskAt r).burst_time * 100 < 1 * 100 := by
              exact mul_lt_mul_of_pos_right hq (by norm_num)
        _ = 100 := one_mul 100
      have hfl_lt : ⌊((s.taskAt r).burst_time - (s.taskAt r).remaining_time)
          / (s.taskAt r).burst_time * 100⌋ < 100 := by
        rw [Int.floor_lt]
        exact_mod_cast hxlt
      have hfl_nn : 0 ≤ ⌊((s.taskAt r).burst_time - (s.taskAt r).remaining_time)
          / (s.taskAt r).burst_time * 100⌋ := Int.floor_nonneg.2 hxnn
      rw [hpg, pyInt_of_nonneg hxnn, min_eq_right (le_of_lt hfl_lt)]
      exact ⟨rfl, hfl_lt, hfl_nn⟩
    refine ⟨⟨?_, ?_⟩, ?_⟩
    · intro hp100
      by_contra hc
      obtain ⟨_, hlt, _⟩ := key hc
      rw [hp100] at hlt
      exact absurd hlt (by norm_num)
    · intro hc
      exact (hcomp hc).2.1
    · intro hc
      obtain ⟨hpe, hlt, hnn⟩ := key hc
      rw [hpe] at hlt hnn ⊢
      rw [show (100 : Rat) * (((s.taskAt r).burst_time - (s.taskAt r).remaining_time)
            / (s.taskAt r).burst_time)
          = ((s.taskAt r).burst_time - (s.taskAt r).remaining_time)
            / (s.taskAt r).burst_time * 100 from by ring]
      rw [min_eq_right (le_of_lt hlt), max_eq_right hnn]
  · refine ⟨scA_proc1, ?_, ?_, ?_, scA_proc2, ?_, ?_, ?_⟩ <;>
      simp [scAs3, scAs5, SchedState.taskAt, List.getD, scAtask1, scAtask2]

theorem progress_completion_witness :
    ((scAs5.taskAt 0).progress = 100) ↔ (scAs5.taskAt 0).status = Status.completed :=
  ((progress_completion scAs5 scAs5_reachable).1 0 (by simp [scAs5])).1

/-- Claim C5: `update_task` on a completed task mutates nothing — the state
comes back unchanged — yet still returns the task (its reference), not a
not-found result; on an absent id it returns not-found, also unchanged. -/
theorem update_completed_rejected (s : SchedState) (task_id : String) (ref : Nat)
    (p : Patch) (hg : dictGet s.tasks task_id = some ref)
    (hc : (s.taskAt ref).status = Status.completed) :
    update_task s task_id p = (s, some ref)
    ∧ ∀ id' p', dictGet s.tasks id' = none → update_task s id' p' = (s, none) := by
  constructor
  · unfold update_task
    rw [hg]
    dsimp only
    rw [if_neg (not_not_intro hc)]
  · intro id' p' hn
    unfold update_task
    rw [hn]

theorem update_completed_rejected_witness :
    update_task scAs5 "t1" Patch.empty = (scAs5, some 0) :=
  (update_completed_rejected scAs5 "t1" 0 Patch.empty
    (by simp [scAs5, dictGet])
    (by simp [scAs5, SchedState.taskAt, List.getD, scAtask2])).1

theorem getD_set_sched (store : List Task) (ref : Nat) (t' : Task)
    (h1 : t'.burst_time = (store.getD ref taskDefault).burst_time)
    (h2 : t'.remaining_time = (store.getD ref taskDefault).remaining_time)
    (h3 : t'.status = (store.getD ref taskDefault).status) :
    ∀ r, ((store.set ref t').getD r taskDefault).burst_time
        = (store.getD r taskDefault).burst_time
      ∧ ((store.set ref t').getD r taskDefault).remaining_time
        = (store.getD r taskDefault).remaining_time
      ∧ ((store.set ref t').getD r taskDefault).status
        = (store.getD r taskDefault).status := by
  intro r
  rcases eq_or_ne r ref with rfl | hne
  · rcases Nat.lt_or_ge r store.length with hlt | hge
    · rw [getD_set_self _ _ hlt]
      exact ⟨h1, h2, h3⟩
    · rw [getD_set_out _ _ hge]
      exact ⟨rfl, rfl, rfl⟩
  · rw [getD_set_ne _ _ (Ne.symm hne)]
    exact ⟨rfl, rfl, rfl⟩

theorem update_name_sched (s : SchedState) (ref : Nat) (o : Option String) :
    (∀ r, ((update_name s ref o).taskAt r).burst_time = (s.taskAt r).burst_time
      ∧ ((update_name s ref o).taskAt r).remaining_time = (s.taskAt r).remaining_time
      ∧ ((update_name s ref o).taskAt r).status = (s.taskAt r).status)
    ∧ (update_name s ref o).store.length = s.store.length := by
  cases o with
  | none => exact ⟨fun r => ⟨rfl, rfl, rfl⟩, rfl⟩
  | some n =>
      refine ⟨fun r => ?_, ?_⟩
      · simp only [update_name, taskAt_eq_getD]
        exact getD_set_sched s.store ref _ (by rfl) (by rfl) (by rfl) r
      · simp [update_name]

theorem update_description_sched (s : SchedState) (ref : Nat) (o : Option String) :
    (∀ r, ((update_description s ref o).taskAt r).burst_time = (s.taskAt r).burst_time
      ∧ ((update_description s ref o).taskAt r).remaining_time = (s.taskAt r).remaining_time
      ∧ ((update_description s ref o).taskAt r).status = (s.taskAt r).status)
    ∧ (update_description s ref o).store.length = s.store.length := by
  cases o with
  | none => exact ⟨fun r => ⟨rfl, rfl, rfl⟩, rfl⟩
  | some d =>
      refine ⟨fun r => ?_, ?_⟩
      · simp only [update_description, taskAt_eq_getD]
        exact getD_set_sched s.store ref _ (by rfl) (by rfl) (by rfl) r
      · simp [update_description]

theorem update_priority_sched (s : SchedState) (ref : Nat) (o : Option Int) :
    (∀ r, ((update_priority s ref o).taskAt r).burst_time = (s.taskAt r).burst_time
      ∧ ((update_priority s ref o).taskAt r).remaining_time = (s.taskAt r).remaining_time
      ∧ ((update_priority s ref o).taskAt r).status = (s.taskAt r).status)
    ∧ (update_priority s ref o).store.length = s.store.length := by
  cases o with
  | none => exact ⟨fun r => ⟨rfl, rfl, rfl⟩, rfl⟩
  | some pr =>
      unfold update_priority
      dsimp only
      split
      · refine ⟨fun r => ?_, ?_⟩
        · simp only [taskAt_eq_getD]
          exact getD_set_sched s.store ref _ (by rfl) (by rfl) (by rfl) r
        · simp
      · refine ⟨fun r => ?_, ?_⟩
        · simp only [taskAt_eq_getD]
          exact getD_set_sched s.store ref _ (by rfl) (by rfl) (by rfl) r
        · simp

/-- Claim C6: `update_task` applies a `burst_time` change only while the
task is still pending, and then sets
`remaining_time = old_remaining_time − old_burst_time + new_burst_time`;
for a running or completed task both `burst_time` and `remaining_time` are
left unchanged.  The other keywords of the same call never touch these
fields. -/
theorem update_burst_rule (s : SchedState) (task_id : String) (ref : Nat) (p : Patch)
    (nb : Rat) (hg : dictGet s.tasks task_id = some ref) (hlen : ref < s.store.length)
    (hbp : p.burst_time = some nb) :
    ((s.taskAt ref).status = Status.pending →
      ((update_task s task_id p).1.taskAt ref).burst_time = nb
      ∧ ((update_task s task_id p).1.taskAt ref).remaining_time
          = (s.taskAt ref).remaining_time - (s.taskAt ref).burst_time + nb)
    ∧ ((s.taskAt ref).status ≠ Status.pending →
      ((update_task s task_id p).1.taskAt ref).burst_time = (s.taskAt ref).burst_time
      ∧ ((update_task s task_id p).1.taskAt ref).remaining_time
          = (s.taskAt ref).remaining_time) := by
  unfold update_task
  rw [hg]
  dsimp only
  split
  case isTrue hnc =>
    obtain ⟨hn_f, hn_len⟩ := update_name_sched s ref p.name
    obtain ⟨hd_f, hd_len⟩ :=
      update_description_sched (update_name s ref p.name) ref p.description
    obtain ⟨hp_f, hp_len⟩ :=
      update_priority_sched
        (update_description (update_name s ref p.name) ref p.description) ref p.priority
    have hb3 : ((update_priority
          (update_description (update_name s ref p.name) ref p.description)
          ref p.priority).taskAt ref).burst_time = (s.taskAt ref).burst_time := by
      rw [(hp_f ref).1, (hd_f ref).1, (hn_f ref).1]
    have hr3 : ((update_priority
          (update_description (update_name s ref p.name) ref p.description)
          ref p.priority).taskAt ref).remaining_time = (s.taskAt ref).remaining_time := by
      rw [(hp_f ref).2.1, (hd_f ref).2.1, (hn_f ref).2.1]
    have hst3 : ((update_priority
          (update_description (update_name s ref p.name) ref p.description)
          ref p.priority).taskAt ref).status = (s.taskAt ref).status := by
      rw [(hp_f ref).2.2, (hd_f ref).2.2, (hn_f ref).2.2]
    have hlen3 : ref < (update_priority
        (update_description (update_name s ref p.name) ref p.description)
        ref p.priority).store.length := by
      rw [hp_len, hd_len, hn_len]
      exact hlen
    rw [hbp]
    unfold update_burst
    dsimp only
    split
    case isTrue hpend3 =>
      have hpend : (s.taskAt ref).status = Status.pending := by
        rw [← hst3]
        exact hpend3
      refine ⟨fun _ => ?_, fun hnp => absurd hpend hnp⟩
      constructor
      · simp only [taskAt_eq_getD]
        rw [getD_set_self _ _ hlen3]
      · simp only [taskAt_eq_getD]
        rw [getD_set_self _ _ hlen3]
        show ((update_priority
            (update_description (update_name s ref p.name) ref p.description)
            ref p.priority).taskAt ref).remaining_time
          - ((update_priority
            (update_description (update_name s ref p.name) ref p.description)
            ref p.priority).taskAt ref).burst_time + nb
          = (s.taskAt ref).remaining_time - (s.taskAt ref).burst_time + nb
        rw [hb3, hr3]
    case isFalse hpend3 =>
      have hnp : (s.taskAt ref).status ≠ Status.pending := by
        rw [← hst3]
        exact hpend3
      exact ⟨fun hp => absurd hp hnp, fun _ => ⟨hb3, hr3⟩⟩
  case isFalse hnc =>
    have hcomp : (s.taskAt ref).status = Status.completed := not_not.mp hnc
    refine ⟨fun hp => ?_, fun _ => ⟨rfl, rfl⟩⟩
    rw [hcomp] at hp
    exact Status.noConfusion hp

theorem update_burst_rule_witness :
    ((update_task c2Ex "a" ⟨none, none, none, some 5⟩).1.taskAt 0).burst_time = 5
    ∧ ((update_task c2Ex "a" ⟨none, none, none, some 5⟩).1.taskAt 0).remaining_time
        = (c2Ex.taskAt 0).remaining_time - (c2Ex.taskAt 0).burst_time + 5 :=
  (update_burst_rule c2Ex "a" 0 ⟨none, none, none, some 5⟩ 5
    (by simp [c2Ex, add_task, initScheduler, dictSet, dictGet, c2a, c2b, Task.init])
    (by simp [c2Ex, add_task, initScheduler])
    rfl).1
    (by simp [c2Ex, add_task, initScheduler, SchedState.taskAt, List.getD, c2a, c2b, Task.init])

/-- A completed task with a recorded response time of 6. -/
def c7t0 : Task :=
  { task_id := "a", name := "a", description := "", priority := 1,
    burst_time := 1, created_at := 0, arrival_time := 0, remaining_time := 0,
    waiting_time := 0, turnaround_time := 1, completion_time := some 1,
    response_time := 6, last_execution_time := 0, status := Status.completed,
    progress := 100 }

/-- A completed task whose `response_time` still holds the −1 sentinel. -/
def c7t1 : Task :=
  { task_id := "b", name := "b", description := "", priority := 1,
    burst_time := 1, created_at := 0, arrival_time := 0, remaining_time := 0,
    waiting_time := 0, turnaround_time := 1, completion_time := some 1,
    response_time := -1, last_execution_time := 0, status := Status.completed,
    progress := 100 }

/-- Engine state with two completed tasks, one of them with an unset
(−1) response time. -/
def c7Ex : SchedState :=
  { store := [c7t0, c7t1], tasks := [("a", 0), ("b", 1)], ready_queue := [],
    time_quantum := 1, execution_sequence := [], completed_tasks := [0, 1],
    idle := true, running := false, current_task := none }

/-- Claim C7: `get_stats` reports the completed count, computes
`avg_response_time` as the sum of `response_time` over completed tasks with
nonnegative response time divided by the number of completed tasks, and
returns 0 for all three averages when no task is completed.  The last two
conjuncts pin the divisor concretely: with two completed tasks of response
times 6 and −1 (sentinel), the average is 6/2 = 3 — divided by the
completed count, not by the count of tasks with a valid response time. -/
theorem stats_avg_response (s : SchedState) (now : Rat) :
    (get_stats s now).completed_tasks = s.completed_tasks.length
    ∧ (get_stats s now).avg_response_time
        = (if 0 < s.completed_tasks.length then
            ((((s.completed_tasks.map s.taskAt).filter
                (fun t => decide (0 ≤ t.response_time))).map Task.response_time).sum)
              / (s.completed_tasks.length : Rat)
          else 0)
    ∧ (s.completed_tasks.length = 0 →
        (get_stats s now).avg_waiting_time = 0
        ∧ (get_stats s now).avg_turnaround_time = 0
        ∧ (get_stats s now).avg_response_time = 0)
    ∧ (get_stats c7Ex 0).completed_tasks = 2
    ∧ (get_stats c7Ex 0).avg_response_time = 3 := by
  refine ⟨rfl, rfl, ?_, rfl, ?_⟩
  · intro h0
    refine ⟨?_, ?_, ?_⟩ <;> simp [get_stats, h0]
  · show (if 0 < c7Ex.completed_tasks.length then
        ((((c7Ex.completed_tasks.map c7Ex.taskAt).filter
            (fun t => decide (0 ≤ t.response_time))).map Task.response_time).sum)
          / (c7Ex.completed_tasks.length : Rat)
      else 0) = 3
    norm_num [c7Ex, SchedState.taskAt, List.getD, c7t0, c7t1, List.filter]

/-- Claim C9: the `to_dict` snapshot reports `completion_time` as 0 while it
is unset, reports `response_time` verbatim — in particular the −1 sentinel
of a task that has never received a slice, the value every freshly
constructed task carries — and reports every other field with its current
value (a set, nonzero completion time is reported as-is). -/
theorem to_dict_snapshot (t : Task) :
    (t.completion_time = none → t.to_dict.completion_time = 0)
    ∧ t.to_dict.response_time = t.response_time
    ∧ (∀ task_id nm pr b d c, (Task.init task_id nm pr b d c).response_time = -1)
    ∧ t.to_dict.task_id = t.task_id
    ∧ t.to_dict.name = t.name
    ∧ t.to_dict.description = t.description
    ∧ t.to_dict.priority = t.priority
    ∧ t.to_dict.burst_time = t.burst_time
    ∧ t.to_dict.created_at = t.created_at
    ∧ t.to_dict.arrival_time = t.arrival_time
    ∧ t.to_dict.remaining_time = t.remaining_time
    ∧ t.to_dict.waiting_time = t.waiting_time
    ∧ t.to_dict.turnaround_time = t.turnaround_time
    ∧ t.to_dict.status = t.status
    ∧ t.to_dict.progress = t.progress
    ∧ (∀ ct, t.completion_time = some ct → ct ≠ 0 → t.to_dict.completion_time = ct) := by
  refine ⟨?_, rfl, fun _ _ _ _ _ _ => rfl, rfl, rfl, rfl, rfl, rfl, rfl, rfl, rfl, rfl,
    rfl, rfl, rfl, ?_⟩
  · intro h
    simp [Task.to_dict, pyFalsyTimeOrZero, h]
  · intro ct h hne
    simp [Task.to_dict, pyFalsyTimeOrZero, h, hne]

theorem to_dict_snapshot_witness :
    (Task.init "w" "w" 1 2 "" 0).to_dict.completion_time = 0 :=
  (to_dict_snapshot (Task.init "w" "w" 1 2 "" 0)).1 rfl

/-- First task added under id "a" in the duplicate-id run. -/
def c10t0 : Task := Task.init "a" "x" 5 3 "" 0

/-- Second task, added under the same id "a". -/
def c10t1 : Task := Task.init "a" "y" 5 4 "" 0

/-- State after adding two tasks with the same id "a". -/
def c10Dup : SchedState := (add_task (add_task (initScheduler 1) c10t0 0).1 c10t1 0).1

theorem mergeSort_pair {le : Nat → Nat → Bool} {a b : Nat} (h : le a b = true) :
    [a, b].mergeSort le = [a, b] :=
  List.mergeSort_of_sorted (by simp [h])

theorem c10Dup_eq : c10Dup =
    { store := [c10t0, c10t1], tasks := [("a", 1)], ready_queue := [0, 1],
      time_quantum := 1, execution_sequence := [], completed_tasks := [],
      idle := false, running := false, current_task := none } := by
  have hs1 : (add_task (initScheduler 1) c10t0 0).1 =
      { store := [c10t0], tasks := [("a", 0)], ready_queue := [0],
        time_quantum := 1, execution_sequence := [], completed_tasks := [],
        idle := false, running := false, current_task := none } := by
    simp [add_task, initScheduler, sortQueue, dictSet, c10t0, Task.init]
  rw [c10Dup, hs1]
  simp [add_task, sortQueue, dictSet, c10t0, c10t1, Task.init]
  exact mergeSort_pair (by simp [prDesc, prAt, List.getD])

/-- Claim C10: along any run whose `add_task` calls all use fresh ids
(pairwise-distinct ids give exactly this), every ready-queue element occurs
exactly once and is exactly the reference stored in the task table under
its own task id.  When an id is reused, the table entry is replaced but the
previously added task object stays in the queue: in the concrete
duplicate-"a" run, the queue holds both objects 0 and 1, the table maps "a"
to object 1, and object 0 — still queued, with task id "a" — is no longer
reachable through the table. -/
theorem queue_table_correspondence (s : SchedState) (hs : ReachableFresh s) :
    s.ready_queue.Nodup
    ∧ (∀ r ∈ s.ready_queue, dictGet s.tasks ((s.taskAt r).task_id) = some r)
    ∧ (c10Dup.ready_queue = [0, 1]
        ∧ dictGet c10Dup.tasks "a" = some 1
        ∧ (c10Dup.taskAt 0).task_id = "a"
        ∧ ∀ kv ∈ c10Dup.tasks, kv.2 ≠ 0) := by
  refine ⟨(reachable_WF hs).queue_nodup, reachableFresh_corr hs, ?_, ?_, ?_, ?_⟩
  · rw [c10Dup_eq]
  · rw [c10Dup_eq]
    simp [dictGet]
  · rw [c10Dup_eq]
    simp [SchedState.taskAt, List.getD, c10t0, Task.init]
  · rw [c10Dup_eq]
    intro kv hkv
    simp at hkv
    rw [hkv]
    simp

theorem c2Ex_reachableFresh : ReachableFresh c2Ex :=
  ReachableG.step
    (ReachableG.step (ReachableG.init 1 (by norm_num))
      (StepG.add (initScheduler 1) "a" "t" 5 3 "" 0 0 (by norm_num)
        (fun _ => rfl)))
    (StepG.add (add_task (initScheduler 1) c2a 0).1 "b" "t" 5 4 "" 0 0 (by norm_num)
      (fun _ => by simp [add_task, initScheduler, dictSet, dictGet, c2a, Task.init]))

theorem queue_table_correspondence_witness : c2Ex.ready_queue.Nodup :=
  (queue_table_correspondence c2Ex c2Ex_reachableFresh).1
end TaskSched
